import Mathlib

/-!
# go-github-cli: the concurrent issue pager

A shallow embedding of `issues_subcmd.go` (and of the sibling sequential pager of
`projects_subcmd.go`).

Modelling conventions.
* A Go pointer to a `Page` is the position of that page in `Pager.Pages`; the
  pager is the heap of pages.
* Go `int` is the 64-bit two's-complement integer: a value is an `Int`, and the one
  arithmetic operation of the program, the loop counter `i++`, wraps (`wrapInt`).
* A `nil` slice and an empty slice are both `[]` (the code only ranges over them); the
  elements of a `[]*github.Issue` are the issues pointed to.
* `time.Time` is an instant plus a zone offset; `Time.After` compares instants.
* The go-github client and `time.Parse` are external: they are parameters.
* A pointer field that the program reads is an `Option`; a nil-pointer dereference is
  a panic, made explicit in the result types.
* The debug and progress prints are part of the result of a function; the lines that
  `reportIssues` prints are recorded as the issues they are made from.
* Goroutines are interleaved statement by statement (sequential consistency); the
  thread running `IssuePager` moves one loop turn at a time.
-/

namespace GoGithubCli

/-! # Part I: the embedding -/

/-! ## External types -/

/-- Go `time.Time`: an instant (`wall`, counted from the zero time) and a zone offset. -/
structure Time where
  wall : Int
  zone : Int
  deriving DecidableEq, Repr

/-- The zero value of `time.Time`. -/
def Time.zero : Time := ⟨0, 0⟩

/-- Go `t.After(u)`: the instant of `t` is after the instant of `u`. -/
def Time.After (t u : Time) : Bool := decide (u.wall < t.wall)

/-- Go `error` values; `wrap` is `fmt.Errorf` with a `%w` verb. -/
inductive Error where
  | base (msg : String)
  | wrap (msg : String) (cause : Error)
  deriving DecidableEq, Repr

/-- The field of `github.User` read by this program, a pointer. -/
structure User where
  Login : Option String
  deriving DecidableEq, Repr

/-- The fields of `github.Issue` read by this program; all of them are pointers. -/
structure Issue where
  Number : Option Int
  UpdatedAt : Option Time
  State : Option String
  User : Option User
  Title : Option String
  deriving DecidableEq, Repr

/-- The go-github getter `GetNumber`: 0 for a nil field. -/
def Issue.GetNumber (issue : Issue) : Int := issue.Number.getD 0

/-- The go-github getter `GetState`: the empty string for a nil field. -/
def Issue.GetState (issue : Issue) : String := issue.State.getD ""

/-- The go-github getter `GetTitle`: the empty string for a nil field. -/
def Issue.GetTitle (issue : Issue) : String := issue.Title.getD ""

/-- The go-github getters `GetUser().GetLogin()`: the empty string when the user or its
login is nil. -/
def Issue.GetLogin (issue : Issue) : String :=
  match issue.User with
  | none => ""
  | some user => user.Login.getD ""

/-- Go `int` arithmetic: the 64-bit two's-complement value of the integer `x`. -/
def wrapInt (x : Int) : Int :=
  (x + 9223372036854775808) % 18446744073709551616 - 9223372036854775808

/-- The largest Go `int`. -/
def maxInt64 : Int := 9223372036854775807

/-- The smallest Go `int`. -/
def minInt64 : Int := -9223372036854775808

/-- The go-github `IssueListByRepoOptions`, with its embedded `ListOptions`
(`SortBy` is the Go field `Sort`, a reserved word here). -/
structure IssueListByRepoOptions where
  Milestone : String := ""
  State : String := ""
  Assignee : String := ""
  Creator : String := ""
  Mentioned : String := ""
  Labels : List String := []
  SortBy : String := ""
  Direction : String := ""
  Since : Time := Time.zero
  Page : Int := 0
  PerPage : Int := 0
  deriving DecidableEq, Repr

/-- The fields of `github.Response` read by this program. -/
structure Response where
  NextPage : Int
  LastPage : Int
  deriving DecidableEq, Repr

/-- The three values returned by `client.Issues.ListByRepo`. -/
structure FetchResult where
  issues : List Issue
  response : Option Response
  err : Option Error
  deriving DecidableEq, Repr

/-- The go-github client: `ListByRepo owner repo opts`. -/
structure Client where
  ListByRepo : String → String → IssueListByRepoOptions → FetchResult

/-! ## Page and Pager (lines 12-37) -/

structure Page where
  Number : Int := 0
  Next : Int := 0
  Last : Int := 0
  Fetched : Bool := false
  Result : List Issue := []
  deriving DecidableEq, Repr

structure Pager where
  Pages : List Page := []
  deriving DecidableEq, Repr

/-- Lines 24-26: `pager.Pages = append(pager.Pages, page)`. -/
def Pager.Add (pager : Pager) (page : Page) : Pager :=
  { pager with Pages := pager.Pages ++ [page] }

/-- The `for ... range` loop of lines 29-35 over the remaining pages. -/
def Pager.IsFetched.loop : List Page → Bool
  | [] => true
  | page :: rest => if page.Fetched then Pager.IsFetched.loop rest else false

/-- Lines 28-37, in state-passing style: the returned boolean and the pager after
the call (the method has a pointer receiver). -/
def Pager.IsFetched (pager : Pager) : Bool × Pager :=
  (Pager.IsFetched.loop pager.Pages, pager)

/-! ## GhIssues (lines 39-92) -/

structure GhIssues where
  Owner : String
  Repo : String
  State : String
  Since : Option Time
  To : Option Time
  deriving DecidableEq, Repr

/-- Go `time.RFC3339`. -/
def RFC3339 : String := "2006-01-02T15:04:05Z07:00"

/-- Lines 48-78: the lines written to standard output (the debug print of line 62,
`fmt.Println("DEBUG -- to: ", to)`) and the returned pair, an error or the GhIssues.
`timeParse` is Go `time.Parse`. The function takes no client: it cannot fetch. -/
def NewGhIssues (timeParse : String → String → Except Error Time)
    (owner repo since to' state : String) : List String × Except Error GhIssues :=
  let sinceStep : Except Error (Option Time) :=
    if since ≠ "" then
      match timeParse RFC3339 since with
      | .error err =>
        .error (Error.wrap
          ("An error occured while parsing the `since` date " ++ since ++ ": ") err)
      | .ok sinceTime => .ok (some sinceTime)
    else .ok none
  match sinceStep with
  | .error err => ([], .error err)
  | .ok ptrSinceTime =>
    if to' ≠ "" then
      let stdout := ["DEBUG -- to:  " ++ to']
      match timeParse RFC3339 to' with
      | .error err =>
        (stdout, .error (Error.wrap
          ("An error occured while parsing the `to` date " ++ to' ++ ": ") err))
      | .ok toTime =>
        (stdout, .ok { Owner := owner, Repo := repo, State := state,
                       Since := ptrSinceTime, To := some toTime })
    else
      ([], .ok { Owner := owner, Repo := repo, State := state,
                 Since := ptrSinceTime, To := none })

/-- Lines 80-92. -/
def GhIssues.GetOpts (ghi : GhIssues) : IssueListByRepoOptions :=
  let opts : IssueListByRepoOptions :=
    { SortBy := "updated", Direction := "desc", State := ghi.State }
  match ghi.Since with
  | some since => { opts with Since := since }
  | none => opts

/-! ## fetchPageIssue (lines 94-111) -/

/-- A nil-pointer dereference: `response.NextPage` on a nil `response` (line 107), or
`issue.UpdatedAt` nil at line 142 or line 163. -/
inductive Panic where
  | nilResponse
  | nilUpdatedAt
  deriving DecidableEq, Repr

/-- Lines 94-111, run to completion: the page after the call and the returned error,
or the panic of line 107. -/
def GhIssues.fetchPageIssue (ghi : GhIssues) (client : Client)
    (opts : IssueListByRepoOptions) (page : Page) : Except Panic (Page × Option Error) :=
  let err : Option Error := none
  if err ≠ none then .ok (page, err)
  else
    let opts := { opts with Page := page.Number }
    let r := client.ListByRepo ghi.Owner ghi.Repo opts
    let page := if r.err = none then { page with Fetched := true, Result := r.issues } else page
    match r.response with
    | none => .error Panic.nilResponse
    | some response =>
      .ok ({ page with Next := response.NextPage, Last := response.LastPage }, r.err)

/-- The control point of a goroutine running `fetchPageIssue` on its page: the line
it executes next, with the values `issues, response, err` once line 102 has returned. -/
inductive Task where
  | line99
  | line103 (r : FetchResult)
  | line105 (r : FetchResult)
  | line107 (r : FetchResult)
  | line108 (r : FetchResult) (response : Response)
  | line110 (r : FetchResult)
  | finished
  deriving DecidableEq, Repr

/-- One statement of `fetchPageIssue` executed by a goroutine on its page. `none`: the
goroutine has ended. The value returned at line 110 is dropped by the caller
(lines 127-129). -/
def Task.step (ghi : GhIssues) (client : Client) (opts : IssueListByRepoOptions) :
    Task → Page → Option (Except Panic (Task × Page))
  | .line99, page =>
    some (.ok (.line103 (client.ListByRepo ghi.Owner ghi.Repo { opts with Page := page.Number }),
      page))
  | .line103 r, page =>
    if r.err = none then some (.ok (.line105 r, { page with Fetched := true }))
    else some (.ok (.line107 r, page))
  | .line105 r, page => some (.ok (.line107 r, { page with Result := r.issues }))
  | .line107 r, page =>
    match r.response with
    | none => some (.error Panic.nilResponse)
    | some response => some (.ok (.line108 r response, { page with Next := response.NextPage }))
  | .line108 r response, page => some (.ok (.line110 r, { page with Last := response.LastPage }))
  | .line110 _, page => some (.ok (.finished, page))
  | .finished, _ => none

/-! ## IssuePager (lines 113-136) -/

/-- Where the thread running `IssuePager` stands: in the loop of line 124 with counter
`i`, in the wait loop of line 132, returned at line 135, or stopped by a panic of some
goroutine (an unrecovered panic ends the process). -/
inductive Ctl where
  | loop (i : Int)
  | wait
  | returned
  | crashed
  deriving DecidableEq, Repr

/-- The pager together with the goroutines started so far: `tasks[j]` runs on the
page `pager.Pages[j + 1]` (page 1, at position 0, is fetched by the caller). -/
structure St where
  pager : Pager
  tasks : List Task
  ctl : Ctl
  deriving DecidableEq, Repr

/-- Lines 115-123: what `IssuePager` has done when it reaches the loop of line 124. -/
inductive Start where
  | panicked
  | failed (pager : Pager) (err : Error)
  | fanOut (s : St)
  deriving DecidableEq, Repr

/-- Lines 115-123. The page written by `fetchPageIssue` is the one the pager holds. -/
def GhIssues.IssuePager.start (ghi : GhIssues) (client : Client) : Start :=
  let pager : Pager := {}
  let page : Page := { Number := 1 }
  let pager := pager.Add page
  let opts := ghi.GetOpts
  match ghi.fetchPageIssue client opts page with
  | .error _ => .panicked
  | .ok (page, some err) => .failed { pager with Pages := pager.Pages.set 0 page } err
  | .ok (page, none) =>
    .fanOut { pager := { pager with Pages := pager.Pages.set 0 page }, tasks := [],
              ctl := .loop page.Next }

/-- Who moves next: the thread running `IssuePager`, or the goroutine `tasks[j]`. -/
inductive Event where
  | main
  | task (j : Nat)
  deriving DecidableEq, Repr

/-- One move of the thread running `IssuePager` (lines 124-135): one turn of the loop
of line 124 (the test, then `Add` and `go`), or one test of the wait loop of line 132
(followed by the return, or by the sleep). `i++` is Go `int` addition. No goroutine writes `pager.Pages` or page 1,
and `Fetched` only goes from false to true, so taking a turn as one move loses no
interleaving. -/
def St.mainStep (s : St) : Option St :=
  match s.ctl with
  | .loop i =>
    match s.pager.Pages with
    | [] => none
    | page :: _ =>
      if i ≤ page.Last then
        some { pager := s.pager.Add { Number := i }, tasks := s.tasks ++ [Task.line99],
               ctl := .loop (wrapInt (i + 1)) }
      else some { s with ctl := .wait }
  | .wait =>
    if s.pager.IsFetched.1 then some { s with pager := s.pager.IsFetched.2, ctl := .returned }
    else some { s with pager := s.pager.IsFetched.2 }
  | .returned => none
  | .crashed => none

/-- One statement of the goroutine `tasks[j]`. -/
def St.taskStep (ghi : GhIssues) (client : Client) (s : St) (j : Nat) : Option St :=
  if s.ctl = .crashed then none
  else
    match s.tasks[j]?, s.pager.Pages[j + 1]? with
    | some t, some page =>
      match t.step ghi client ghi.GetOpts page with
      | none => none
      | some (.error _) => some { s with ctl := .crashed }
      | some (.ok (t', page')) =>
        some { s with pager := { s.pager with Pages := s.pager.Pages.set (j + 1) page' },
                      tasks := s.tasks.set j t' }
    | _, _ => none

/-- One move of the system; `none` when the chosen thread cannot move. -/
def St.step (ghi : GhIssues) (client : Client) (s : St) : Event → Option St
  | .main => s.mainStep
  | .task j => s.taskStep ghi client j

/-- The state after a schedule; a thread that cannot move when it is chosen is
passed over, so every list of events is a schedule. -/
def St.run (ghi : GhIssues) (client : Client) : List Event → St → St
  | [], s => s
  | e :: es, s =>
    match s.step ghi client e with
    | none => St.run ghi client es s
    | some s' => St.run ghi client es s'

/-! ## reportIssues (lines 148-170) -/

/-- The five values that `StringifyIssue` hands to `Sprintf` for the format
"#%d, %s, %s, %s, %s"; `updated` is printed with `Format(time.RFC822)`. -/
structure Line where
  number : Int
  updated : Time
  state : String
  login : String
  title : String
  deriving DecidableEq, Repr

/-- Lines 139-146. The four getters are nil-safe; `issue.UpdatedAt.Format` dereferences
the pointer and panics when it is nil. -/
def StringifyIssue (issue : Issue) : Except Panic Line :=
  match issue.UpdatedAt with
  | none => .error Panic.nilUpdatedAt
  | some updated =>
    .ok ⟨issue.GetNumber, updated, issue.GetState, issue.GetLogin, issue.GetTitle⟩

/-- Line 163: `ghi.To == nil || ghi.To.After(*issue.UpdatedAt)`; the dereference, made
only when `To` is set, panics on a nil `UpdatedAt`. -/
def reportIssues.pass (To : Option Time) (issue : Issue) : Except Panic Bool :=
  match To with
  | none => .ok true
  | some t =>
    match issue.UpdatedAt with
    | none => .error Panic.nilUpdatedAt
    | some updated => .ok (t.After updated)

/-- What the traversal of lines 159-168 has done when it stops: the issues whose line
has been printed, in print order, `issueCount`, and the panic that stopped it, if any. -/
structure Printed where
  out : List Issue
  issueCount : Int
  panic : Option Panic
  deriving DecidableEq, Repr

/-- The inner loop of lines 162-167 over the issues still to visit, from what has been
printed and counted so far. -/
def reportIssues.issueLoop (To : Option Time) : List Issue → List Issue × Int → Printed
  | [], (out, issueCount) => ⟨out, issueCount, none⟩
  | issue :: rest, (out, issueCount) =>
    match reportIssues.pass To issue with
    | .error p => ⟨out, issueCount, some p⟩
    | .ok false => reportIssues.issueLoop To rest (out, issueCount)
    | .ok true =>
      match StringifyIssue issue with
      | .error p => ⟨out, issueCount + 1, some p⟩
      | .ok _ => reportIssues.issueLoop To rest (out ++ [issue], issueCount + 1)

/-- The outer loop of lines 161-168 over the pages still to visit. -/
def reportIssues.pageLoop (To : Option Time) : List Page → List Issue × Int → Printed
  | [], (out, issueCount) => ⟨out, issueCount, none⟩
  | page :: rest, acc =>
    match reportIssues.issueLoop To page.Result acc with
    | ⟨out, issueCount, none⟩ => reportIssues.pageLoop To rest (out, issueCount)
    | stopped => stopped

/-- Lines 159-168 on a pager. -/
def reportIssues.report (ghi : GhIssues) (pager : Pager) : Printed :=
  reportIssues.pageLoop ghi.To pager.Pages ([], 0)

/-- What one execution of `reportIssues` does: it returns an error, it is stopped by
a panic of `IssuePager` or of a goroutine (`panicked`) or of the traversal
(`printedThenPanicked`, with the issues printed before), it prints the issues and
returns nil, or `IssuePager` has not returned yet. -/
inductive Report where
  | configError (err : Error)
  | queryError (err : Error)
  | panicked
  | printed (out : List Issue)
  | printedThenPanicked (out : List Issue)
  | running
  deriving DecidableEq, Repr

/-- Lines 148-170 along a schedule of the pager: what `NewGhIssues` writes to standard
output, and what happens then. The traversal of lines 161-168 reads the pager as it is
at the end of the schedule; `running` when `IssuePager` has not returned by then. -/
def reportIssues (timeParse : String → String → Except Error Time) (client : Client)
    (owner repo since to' state : String) (sched : List Event) : List String × Report :=
  match NewGhIssues timeParse owner repo since to' state with
  | (stdout, .error err) =>
    (stdout, .configError (Error.wrap "reportIssues: cannot create a NewGhIssues : " err))
  | (stdout, .ok ghi) =>
    match GhIssues.IssuePager.start ghi client with
    | .panicked => (stdout, .panicked)
    | .failed _ err =>
      (stdout, .queryError (Error.wrap "reportIssues: could not query github: " err))
    | .fanOut s =>
      let s' := St.run ghi client sched s
      match s'.ctl with
      | .returned =>
        match reportIssues.report ghi s'.pager with
        | ⟨out, _, none⟩ => (stdout, .printed out)
        | ⟨out, _, some _⟩ => (stdout, .printedThenPanicked out)
      | .crashed => (stdout, .panicked)
      | _ => (stdout, .running)

/-! ## FetchCards, the sequential pager of projects_subcmd.go (lines 32-50) -/

/-- The three values returned by `client.Projects.ListProjectCards`; a card is
represented by its content URL. -/
structure CardsResult where
  cards : List String
  response : Option Response
  err : Option Error
  deriving DecidableEq, Repr

/-- The go-github client of the projects API: `ListProjectCards columnID page`. -/
structure ProjectsClient where
  ListProjectCards : Int → Int → CardsResult

/-- Lines 36-47 of projects_subcmd.go: the `for` loop of `FetchCards`, with the page to
ask for, the cards gathered so far and the page numbers printed so far by line 37
("fetch page: n"). `fuel` bounds the number of turns (`none` when it runs out). The
error is looked at before the response, and `NextPage == 0` ends the loop. -/
def ProjectCards.FetchCards.loop (client : ProjectsClient) (columnID : Int) :
    Nat → Int → List String → List Int →
      List Int × Option (Except Panic (Except Error (List String)))
  | 0, _, _, printed => (printed, none)
  | fuel + 1, page, allCards, printed =>
    let printed := printed ++ [page]
    let r := client.ListProjectCards columnID page
    match r.err with
    | some err => (printed, some (.ok (.error (Error.wrap "can not fetch cards: " err))))
    | none =>
      let allCards := allCards ++ r.cards
      match r.response with
      | none => (printed, some (.error Panic.nilResponse))
      | some resp =>
        if resp.NextPage = 0 then (printed, some (.ok (.ok allCards)))
        else ProjectCards.FetchCards.loop client columnID fuel resp.NextPage allCards printed

/-- Lines 32-50 of projects_subcmd.go: `GetOpts` starts at page 1. The result is the
page numbers printed and what is returned. -/
def ProjectCards.FetchCards (client : ProjectsClient) (columnID : Int) (fuel : Nat) :
    List Int × Option (Except Panic (Except Error (List String))) :=
  ProjectCards.FetchCards.loop client columnID fuel 1 [] []

/-! ## Reference definitions, following the specification -/

/-- The records of a pager: the per-page records concatenated in the order of the pages. -/
def records (pager : Pager) : List Issue :=
  (pager.Pages.map Page.Result).flatten

/-- The range filter of the specification: a record passes when `to` is unset or its
timestamp is strictly before `to` (so a record without a timestamp passes only when
`to` is unset). -/
def passesRange (to' : Option Time) (issue : Issue) : Bool :=
  match to', issue.UpdatedAt with
  | none, _ => true
  | some t, some updated => decide (updated.wall < t.wall)
  | some _, none => false

/-- A timestamp string is valid when `time.Parse(time.RFC3339, s)` accepts it. -/
def validRFC3339 (timeParse : String → String → Except Error Time) (s : String) : Bool :=
  match timeParse RFC3339 s with
  | .ok _ => true
  | .error _ => false

/-- The timestamp a bound string stands for: unset for the empty string, the parsed
time otherwise. -/
def parsedBound (timeParse : String → String → Except Error Time) (s : String) :
    Option Time :=
  if s = "" then none
  else
    match timeParse RFC3339 s with
    | .ok t => some t
    | .error _ => none

/-- The numbers `lo, lo + 1, ..., hi` in ascending order (none when `hi < lo`). -/
def pageRange (lo hi : Int) : List Int :=
  (List.range (hi + 1 - lo).toNat).map fun (k : Nat) => lo + (k : Int)

/-! ## Auxiliary definitions -/

/-- The page numbers of the pager, in the order of the pages. -/
def St.numbers (s : St) : List Int := s.pager.Pages.map Page.Number

/-- The values returned by line 102 for the page numbered `n`. -/
def fetchOf (ghi : GhIssues) (client : Client) (n : Int) : FetchResult :=
  client.ListByRepo ghi.Owner ghi.Repo { ghi.GetOpts with Page := n }

/-- The page numbered `k` once its goroutine has run to its end after a fetch that
succeeded with a response. -/
def donePage (ghi : GhIssues) (client : Client) (k : Int) : Page :=
  match (fetchOf ghi client k).response with
  | some resp => ⟨k, resp.NextPage, resp.LastPage, true, (fetchOf ghi client k).issues⟩
  | none => { Number := k }

/-- A goroutine run on its own for at most `n` statements: the page it leaves, or the
panic it raises. -/
def Task.exec (ghi : GhIssues) (client : Client) (opts : IssueListByRepoOptions) :
    Nat → Task → Page → Except Panic Page
  | 0, _, page => .ok page
  | n + 1, t, page =>
    match t.step ghi client opts page with
    | none => .ok page
    | some (.error e) => .error e
    | some (.ok (t', page')) => Task.exec ghi client opts n t' page'

/-! ## Invariants of the pager -/

/-- The barrier as an invariant: once `IssuePager` has returned, every page is fetched. -/
def Barrier (s : St) : Prop :=
  s.ctl = .returned → ∀ page ∈ s.pager.Pages, page.Fetched = true

/-- The page of a goroutine that is past line 105: fetched with the issues of its
fetch when the fetch succeeded, untouched when it failed. -/
def Settled (ghi : GhIssues) (client : Client) (page : Page) : Prop :=
  ((fetchOf ghi client page.Number).err = none →
    page.Fetched = true ∧ page.Result = (fetchOf ghi client page.Number).issues) ∧
  ((fetchOf ghi client page.Number).err ≠ none → page.Fetched = false ∧ page.Result = [])

/-- What holds of a goroutine and its page at each control point. -/
def SlotInv (ghi : GhIssues) (client : Client) : Task → Page → Prop
  | .line99, page => page.Fetched = false ∧ page.Result = []
  | .line103 r, page =>
    r = fetchOf ghi client page.Number ∧ page.Fetched = false ∧ page.Result = []
  | .line105 r, page =>
    r = fetchOf ghi client page.Number ∧ r.err = none ∧ page.Fetched = true ∧ page.Result = []
  | .line107 r, page => r = fetchOf ghi client page.Number ∧ Settled ghi client page
  | .line108 r _, page => r = fetchOf ghi client page.Number ∧ Settled ghi client page
  | .line110 r, page => r = fetchOf ghi client page.Number ∧ Settled ghi client page
  | .finished, page => Settled ghi client page

/-- Every started goroutine has its page, and the two agree. -/
def Slots (ghi : GhIssues) (client : Client) (s : St) : Prop :=
  s.tasks.length + 1 = s.pager.Pages.length ∧
  ∀ j t page, s.tasks[j]? = some t → s.pager.Pages[j + 1]? = some page →
    SlotInv ghi client t page

/-- The fan-out as an invariant. `page1` is the page-1 object as `fetchPageIssue` left
it; the loop reads its `Last`. -/
def FanInv (page1 : Page) (s : St) : Prop :=
  s.pager.Pages.head? = some page1 ∧
  match s.ctl with
  | .loop i =>
    page1.Next ≤ i ∧ (i ≤ page1.Last + 1 ∨ i = page1.Next) ∧
      s.numbers = 1 :: pageRange page1.Next (i - 1)
  | .wait => s.numbers = 1 :: pageRange page1.Next page1.Last
  | .returned => s.numbers = 1 :: pageRange page1.Next page1.Last
  | .crashed => ∃ rest, s.numbers ++ rest = 1 :: pageRange page1.Next page1.Last

/-! ## Concrete repositories and schedules -/

/-- A `time.Parse` stand-in for concrete runs: it accepts one timestamp. -/
def demoParse (_layout s : String) : Except Error Time :=
  if s = "2020-01-01T00:00:00Z" then .ok ⟨100, 0⟩ else .error (Error.base "parsing time")

/-- Three issues, the most recently updated first (instants 30, 20, 10). -/
def issueA : Issue := ⟨some 11, some ⟨30, 0⟩, some "open", some ⟨some "yml"⟩, some "first"⟩

/-- The issue updated at instant 20. -/
def issueB : Issue := ⟨some 12, some ⟨20, 0⟩, some "open", some ⟨some "yml"⟩, some "second"⟩

/-- The issue updated at instant 10. -/
def issueC : Issue := ⟨some 13, some ⟨10, 0⟩, some "open", some ⟨some "yml"⟩, some "third"⟩

/-- An issue without `updated_at`: the pointer `UpdatedAt` is nil. -/
def undatedIssue : Issue := ⟨some 14, none, some "open", some ⟨some "yml"⟩, some "undated"⟩

/-- A pager of one fetched page holding a dated, the undated and a dated issue. -/
def undatedPager : Pager := ⟨[⟨1, 0, 0, true, [issueA, undatedIssue, issueB]⟩]⟩

/-- A repository whose single page holds these three issues. -/
def undatedClient : Client :=
  ⟨fun _ _ _ => ⟨[issueA, undatedIssue, issueB], some ⟨0, 0⟩, none⟩⟩

/-- A repository whose page 1 announces the largest `int` as next and as last page. -/
def hugePageClient : Client :=
  ⟨fun _ _ opts =>
    if opts.Page = 1 then ⟨[issueA], some ⟨9223372036854775807, 9223372036854775807⟩, none⟩
    else ⟨[], some ⟨0, 0⟩, none⟩⟩

/-- The state of `IssuePager` on that repository when it enters its loop. -/
def hugePageStart : St :=
  ⟨⟨[⟨1, 9223372036854775807, 9223372036854775807, true, [issueA]⟩]⟩, [],
    .loop 9223372036854775807⟩

/-- A query without bounds. -/
def demoGhi : GhIssues := ⟨"yml", "cli", "open", none, none⟩

/-- A repository whose issues fill three pages: page 1 announces next 2 and last 3. -/
def threePageClient : Client :=
  ⟨fun _ _ opts =>
    if opts.Page = 1 then ⟨[issueA], some ⟨2, 3⟩, none⟩
    else if opts.Page = 2 then ⟨[issueB], some ⟨3, 3⟩, none⟩
    else if opts.Page = 3 then ⟨[issueC], some ⟨0, 0⟩, none⟩
    else ⟨[], some ⟨0, 0⟩, none⟩⟩

/-- The state of `IssuePager` on the three-page repository when it enters its loop. -/
def threePageStart : St :=
  ⟨⟨[⟨1, 2, 3, true, [issueA]⟩]⟩, [], .loop 2⟩

/-- Six statements of goroutine `j`: the whole of its `fetchPageIssue`. -/
def wholeTask (j : Nat) : List Event := List.replicate 6 (Event.task j)

/-- The goroutines `a, a + 1, ..., a + n - 1`, each run to its end, one after the other. -/
def inTurn (a n : Nat) : List Event := (List.range' a n).flatMap wholeTask

/-- The loop runs to its end, page 3 is fetched before page 2, then the wait loop polls. -/
def lastPageFirst : List Event :=
  [.main, .main, .main] ++ wholeTask 1 ++ [.main] ++ wholeTask 0 ++ [.main]

/-- The loop runs to its end, page 2 is fetched, the goroutine of page 3 gets as far
as line 104 (`page.Fetched = true`), and the wait loop polls. -/
def returnBeforeResult : List Event :=
  [.main, .main, .main] ++ wholeTask 0 ++ [.task 1, .task 1, .main]

/-- The records of the three pages of `threePageClient`. -/
def threePageRecs (n : Int) : List Issue :=
  if n = 1 then [issueA] else if n = 2 then [issueB] else if n = 3 then [issueC] else []

/-- A repository of two pages whose second page cannot be fetched: the server answers
with an error status (the response object is there). -/
def brokenPageClient : Client :=
  ⟨fun _ _ opts =>
    if opts.Page = 1 then ⟨[issueA], some ⟨2, 2⟩, none⟩
    else ⟨[], some ⟨0, 0⟩, some (Error.base "502 Bad Gateway")⟩⟩

/-- The state of `IssuePager` on that repository when it enters its loop. -/
def brokenPageStart : St :=
  ⟨⟨[⟨1, 2, 2, true, [issueA]⟩]⟩, [], .loop 2⟩

/-- A repository whose issues fill one page, as GitHub answers for it: the response
names no next and no last page (both 0). go-github leaves a zero `Page` out of the
request, so a request for page 0 is answered like the request for page 1. -/
def singlePageClient : Client :=
  ⟨fun _ _ opts =>
    if opts.Page = 0 ∨ opts.Page = 1 then ⟨[issueA], some ⟨0, 0⟩, none⟩
    else ⟨[], some ⟨0, 0⟩, none⟩⟩

/-- The state of `IssuePager` on the one-page repository when it enters its loop. -/
def singlePageStart : St :=
  ⟨⟨[⟨1, 0, 0, true, [issueA]⟩]⟩, [], .loop 0⟩

/-- The loop runs to its end, the only goroutine runs, the wait loop polls. -/
def singlePageRun : List Event :=
  [.main, .main] ++ wholeTask 0 ++ [.main]

/-- No connection: `ListByRepo` returns an error and no response object. -/
def offlineClient : Client :=
  ⟨fun _ _ _ => ⟨[], none, some (Error.base "dial tcp: no route to host")⟩⟩

/-- The server refuses: `ListByRepo` returns an error together with the response. -/
def refusingClient : Client :=
  ⟨fun _ _ _ => ⟨[], some ⟨0, 0⟩, some (Error.base "403 Forbidden")⟩⟩

/-! # Part II: the properties -/

/-! ## Pager.IsFetched -/

theorem IsFetched_loop_iff (pages : List Page) :
    Pager.IsFetched.loop pages = true ↔ ∀ page ∈ pages, page.Fetched = true := by
  induction pages with
  | nil => simp [Pager.IsFetched.loop]
  | cons page rest ih =>
    by_cases h : page.Fetched = true
    · simp [Pager.IsFetched.loop, h, ih]
    · simp [Pager.IsFetched.loop, h]

/-- C7: `IsFetched` answers true exactly when every page of the pager is fetched; it
is true for a pager without pages, false as soon as one page is unfetched, and the
pager after the call is the pager before it. -/
theorem Pager_IsFetched_spec (pager : Pager) :
    (pager.IsFetched.1 = true ↔ ∀ page ∈ pager.Pages, page.Fetched = true) ∧
    (pager.IsFetched.1 = false ↔ ∃ page ∈ pager.Pages, page.Fetched = false) ∧
    (Pager.IsFetched { Pages := [] }).1 = true ∧
    pager.IsFetched.2 = pager := by
  have h := IsFetched_loop_iff pager.Pages
  refine ⟨h, ?_, rfl, rfl⟩
  rw [← Bool.not_eq_true, show pager.IsFetched.1 = Pager.IsFetched.loop pager.Pages from rfl, h]
  simp

/-! ## GetOpts -/

/-- C8: the request options carry sort "updated", direction "desc", the state filter
and the `since` bound when it is set (the zero time otherwise), nothing else, and they
do not depend on `To`. -/
theorem GetOpts_spec (ghi : GhIssues) :
    ghi.GetOpts.SortBy = "updated" ∧ ghi.GetOpts.Direction = "desc" ∧
    ghi.GetOpts.State = ghi.State ∧
    ghi.GetOpts.Since = (match ghi.Since with
      | some since => since
      | none => Time.zero) ∧
    ghi.GetOpts = { SortBy := "updated", Direction := "desc", State := ghi.State,
                    Since := ghi.GetOpts.Since } ∧
    ∀ to1 to2 : Option Time,
      GhIssues.GetOpts { ghi with To := to1 } = GhIssues.GetOpts { ghi with To := to2 } := by
  cases h : ghi.Since <;> simp [GhIssues.GetOpts, h]

/-! ## NewGhIssues -/

/-- C9: `NewGhIssues` fails exactly when `since` or `to` is non-empty and not a valid
RFC 3339 timestamp; otherwise it returns the GhIssues with the three strings copied
and the two bounds parsed (unset for an empty string). On failure `reportIssues`
reports the configuration error whatever the client and the schedule: no fetch is made.
The only output is the debug line of line 62, written when `since` is accepted and
`to` is non-empty. -/
theorem NewGhIssues_spec (timeParse : String → String → Except Error Time)
    (owner repo since to' state : String) :
    ((∃ err, (NewGhIssues timeParse owner repo since to' state).2 = .error err) ↔
      (since ≠ "" ∧ validRFC3339 timeParse since = false) ∨
      (to' ≠ "" ∧ validRFC3339 timeParse to' = false)) ∧
    (¬ ((since ≠ "" ∧ validRFC3339 timeParse since = false) ∨
        (to' ≠ "" ∧ validRFC3339 timeParse to' = false)) →
      (NewGhIssues timeParse owner repo since to' state).2 =
        .ok { Owner := owner, Repo := repo, State := state,
              Since := parsedBound timeParse since, To := parsedBound timeParse to' }) ∧
    ((since ≠ "" ∧ validRFC3339 timeParse since = false) ∨
        (to' ≠ "" ∧ validRFC3339 timeParse to' = false) →
      ∃ err, ∀ (client : Client) (sched : List Event),
        reportIssues timeParse client owner repo since to' state sched =
          ((NewGhIssues timeParse owner repo since to' state).1, .configError err)) ∧
    (NewGhIssues timeParse owner repo since to' state).1 =
      (if (since = "" ∨ validRFC3339 timeParse since = true) ∧ to' ≠ "" then
        ["DEBUG -- to:  " ++ to']
      else []) := by
  unfold validRFC3339 parsedBound reportIssues NewGhIssues
  by_cases hs : since = "" <;> by_cases ht : to' = ""
  all_goals
    cases h1 : timeParse RFC3339 since <;> cases h2 : timeParse RFC3339 to'
  all_goals simp [hs, ht, h1, h2]
  all_goals exact ⟨_, fun _ => rfl⟩

theorem NewGhIssues_spec_witness :
    (∃ err, (NewGhIssues demoParse "yml" "cli" "yesterday" "" "open").2 = .error err) ∧
    (NewGhIssues demoParse "yml" "cli" "2020-01-01T00:00:00Z" "" "open").2 =
      .ok { Owner := "yml", Repo := "cli", State := "open",
            Since := parsedBound demoParse "2020-01-01T00:00:00Z",
            To := parsedBound demoParse "" } ∧
    ∃ err, ∀ (client : Client) (sched : List Event),
      reportIssues demoParse client "yml" "cli" "" "tomorrow" "open" sched =
        ((NewGhIssues demoParse "yml" "cli" "" "tomorrow" "open").1, .configError err) :=
  ⟨(NewGhIssues_spec demoParse "yml" "cli" "yesterday" "" "open").1.mpr
      (Or.inl ⟨by decide, by simp [validRFC3339, demoParse]⟩),
   (NewGhIssues_spec demoParse "yml" "cli" "2020-01-01T00:00:00Z" "" "open").2.1
      (by simp [validRFC3339, demoParse]),
   (NewGhIssues_spec demoParse "yml" "cli" "" "tomorrow" "open").2.2.1
      (Or.inr ⟨by decide, by simp [validRFC3339, demoParse]⟩)⟩

/-- The messages and the debug line of `NewGhIssues` on a malformed `to`. -/
theorem NewGhIssues_malformed_to :
    NewGhIssues demoParse "yml" "cli" "" "tomorrow" "open" =
      (["DEBUG -- to:  tomorrow"],
        .error (Error.wrap "An error occured while parsing the `to` date tomorrow: "
          (Error.base "parsing time"))) := by
  rfl

/-! ## The range filter of reportIssues -/

theorem pass_dated (To : Option Time) (issue : Issue) (hd : issue.UpdatedAt ≠ none) :
    reportIssues.pass To issue = .ok (passesRange To issue) ∧
    ∃ line, StringifyIssue issue = .ok line := by
  cases hu : issue.UpdatedAt with
  | none => exact absurd hu hd
  | some updated =>
    cases To with
    | none =>
      exact ⟨rfl, ⟨issue.GetNumber, updated, issue.GetState, issue.GetLogin, issue.GetTitle⟩,
        by simp only [StringifyIssue, hu]⟩
    | some t =>
      exact ⟨by simp [reportIssues.pass, passesRange, hu, Time.After],
        ⟨issue.GetNumber, updated, issue.GetState, issue.GetLogin, issue.GetTitle⟩,
        by simp only [StringifyIssue, hu]⟩

theorem issueLoop_dated (To : Option Time) (issues out : List Issue) (n : Int)
    (hd : ∀ issue ∈ issues, issue.UpdatedAt ≠ none) :
    reportIssues.issueLoop To issues (out, n) =
      ⟨out ++ issues.filter (passesRange To),
        n + (issues.filter (passesRange To)).length, none⟩ := by
  induction issues generalizing out n with
  | nil => simp [reportIssues.issueLoop]
  | cons issue rest ih =>
    obtain ⟨hp, line, hl⟩ := pass_dated To issue (hd issue (List.mem_cons_self _ _))
    have ih' := fun out n => ih out n (fun i hi => hd i (List.mem_cons_of_mem _ hi))
    by_cases h : passesRange To issue = true
    · rw [h] at hp
      simp only [reportIssues.issueLoop, hp, hl, ih', List.filter_cons_of_pos h]
      simp
      omega
    · have h' : passesRange To issue = false := by simpa using h
      rw [h'] at hp
      simp only [reportIssues.issueLoop, hp, ih']
      simp [List.filter_cons, h']

theorem pageLoop_dated (To : Option Time) (pages : List Page) (out : List Issue) (n : Int)
    (hd : ∀ issue ∈ records ⟨pages⟩, issue.UpdatedAt ≠ none) :
    reportIssues.pageLoop To pages (out, n) =
      ⟨out ++ (records ⟨pages⟩).filter (passesRange To),
        n + ((records ⟨pages⟩).filter (passesRange To)).length, none⟩ := by
  induction pages generalizing out n with
  | nil => simp [reportIssues.pageLoop, records]
  | cons page rest ih =>
    have h1 : ∀ issue ∈ page.Result, issue.UpdatedAt ≠ none := by
      intro issue hi
      exact hd issue (by simp [records, hi])
    have h2 : ∀ issue ∈ records ⟨rest⟩, issue.UpdatedAt ≠ none := by
      intro issue hi
      refine hd issue ?_
      simp only [records, List.map_cons, List.flatten_cons, List.mem_append]
      exact Or.inr hi
    simp only [reportIssues.pageLoop, issueLoop_dated To page.Result out n h1, ih _ _ h2]
    simp [records, add_assoc]

theorem reportIssues_filter_eq (ghi : GhIssues) (pager : Pager)
    (hd : ∀ issue ∈ records pager, issue.UpdatedAt ≠ none) :
    reportIssues.report ghi pager =
      ⟨(records pager).filter (passesRange ghi.To),
        ((records pager).filter (passesRange ghi.To)).length, none⟩ := by
  simp [reportIssues.report, pageLoop_dated ghi.To pager.Pages [] 0 hd]

/-- The range filter on records that all carry their `UpdatedAt`: the traversal does
not panic, and the issues printed are the records, in their order, whose `UpdatedAt`
is strictly before `To` (a timestamp equal to `To` is left out, no lower bound is
looked at); with `To` unset they are all the records, unchanged. -/
theorem reportIssues_range_filter_dated (ghi : GhIssues) (pager : Pager)
    (hd : ∀ issue ∈ records pager, issue.UpdatedAt ≠ none) :
    (reportIssues.report ghi pager).panic = none ∧
    (reportIssues.report ghi pager).out = (records pager).filter (passesRange ghi.To) ∧
    (∀ t : Time, (reportIssues.report { ghi with To := some t } pager).out =
      (records pager).filter fun issue =>
        match issue.UpdatedAt with
        | some updated => decide (updated.wall < t.wall)
        | none => false) ∧
    (reportIssues.report { ghi with To := none } pager).out = records pager ∧
    (reportIssues.report ghi pager).out.Sublist (records pager) ∧
    (reportIssues.report ghi pager).issueCount = (reportIssues.report ghi pager).out.length := by
  have h := fun g : GhIssues => reportIssues_filter_eq g pager hd
  refine ⟨by rw [h], by rw [h], ?_, ?_, ?_, by rw [h]⟩
  · intro t
    rw [h]
    apply List.filter_congr
    intro issue _
    simp only [passesRange]
    cases issue.UpdatedAt <;> rfl
  · rw [h]
    simp [passesRange]
  · rw [h]
    exact List.filter_sublist _

theorem reportIssues_range_filter_dated_witness :
    (reportIssues.report { demoGhi with To := some ⟨20, 0⟩ }
      ⟨[⟨1, 2, 2, true, [issueA, issueB]⟩, ⟨2, 0, 0, true, [issueC]⟩]⟩).out =
      (records ⟨[⟨1, 2, 2, true, [issueA, issueB]⟩, ⟨2, 0, 0, true, [issueC]⟩]⟩).filter
        (passesRange (some ⟨20, 0⟩)) :=
  (reportIssues_range_filter_dated { demoGhi with To := some ⟨20, 0⟩ }
    ⟨[⟨1, 2, 2, true, [issueA, issueB]⟩, ⟨2, 0, 0, true, [issueC]⟩]⟩ (by decide)).2.1

/-- The scenario of the specification: timestamps 10 < 20 < 30 and `To` = 20 leave the
record of timestamp 10 only. -/
theorem reportIssues_range_filter_scenario :
    reportIssues.report { demoGhi with To := some ⟨20, 0⟩ }
      ⟨[⟨1, 2, 2, true, [issueA, issueB]⟩, ⟨2, 0, 0, true, [issueC]⟩]⟩ =
      ⟨[issueC], 1, none⟩ := by
  decide

/-- C6, at a record without `updated_at` (`UpdatedAt` nil) between two dated records.
With `To` unset the claim has the three records printed unchanged; the code prints
the first, passes line 163 for the second and panics in `StringifyIssue` (line 142).
With `To` set the code panics at line 163 itself. The other four fields are read
through nil-safe getters. The last line is a whole run of `reportIssues`. -/
theorem reportIssues_undated_record_panics :
    records undatedPager = [issueA, undatedIssue, issueB] ∧
    reportIssues.report demoGhi undatedPager = ⟨[issueA], 2, some Panic.nilUpdatedAt⟩ ∧
    reportIssues.report { demoGhi with To := some ⟨100, 0⟩ } undatedPager =
      ⟨[issueA], 1, some Panic.nilUpdatedAt⟩ ∧
    StringifyIssue undatedIssue = .error Panic.nilUpdatedAt ∧
    StringifyIssue ⟨none, some ⟨30, 0⟩, none, none, none⟩ = .ok ⟨0, ⟨30, 0⟩, "", "", ""⟩ ∧
    reportIssues demoParse undatedClient "yml" "cli" "" "" "open" singlePageRun =
      ([], .printedThenPanicked [issueA]) := by
  refine ⟨by decide, by decide, by decide, rfl, rfl, by decide⟩

/-! ## The moves of the pager, case by case -/

theorem run_invariant (ghi : GhIssues) (client : Client) (P : St → Prop)
    (hstep : ∀ s e s', P s → s.step ghi client e = some s' → P s') :
    ∀ (sched : List Event) (s : St), P s → P (St.run ghi client sched s) := by
  intro sched
  induction sched with
  | nil => intro s hs; exact hs
  | cons e es ih =>
    intro s hs
    unfold St.run
    cases h : s.step ghi client e with
    | none => exact ih s hs
    | some s' => exact ih s' (hstep s e s' hs h)

theorem run_append (ghi : GhIssues) (client : Client) (es1 es2 : List Event) (s : St) :
    St.run ghi client (es1 ++ es2) s = St.run ghi client es2 (St.run ghi client es1 s) := by
  induction es1 generalizing s with
  | nil => rfl
  | cons e es ih =>
    simp only [List.cons_append, St.run]
    cases s.step ghi client e <;> simp [ih]

theorem mainStep_cases (s s' : St) (h : s.mainStep = some s') :
    (∃ i page rest, s.ctl = .loop i ∧ s.pager.Pages = page :: rest ∧
      ((i ≤ page.Last ∧
          s' = ⟨s.pager.Add { Number := i }, s.tasks ++ [Task.line99],
            .loop (wrapInt (i + 1))⟩) ∨
       (¬ i ≤ page.Last ∧ s' = { s with ctl := .wait }))) ∨
    (s.ctl = .wait ∧
      ((s.pager.IsFetched.1 = true ∧ s' = { s with ctl := .returned }) ∨
       (s.pager.IsFetched.1 = false ∧ s' = s))) := by
  unfold St.mainStep at h
  split at h
  · rename_i i hc
    split at h
    · simp at h
    · rename_i page rest hp
      left
      refine ⟨i, page, rest, hc, hp, ?_⟩
      split at h
      · rename_i hi
        exact Or.inl ⟨hi, (Option.some.inj h).symm⟩
      · rename_i hi
        exact Or.inr ⟨hi, (Option.some.inj h).symm⟩
  · rename_i hc
    right
    refine ⟨hc, ?_⟩
    split at h
    · rename_i hf
      exact Or.inl ⟨hf, (Option.some.inj h).symm⟩
    · rename_i hf
      exact Or.inr ⟨by simpa using hf, (Option.some.inj h).symm⟩
  · simp at h
  · simp at h

theorem taskStep_cases (ghi : GhIssues) (client : Client) (s s' : St) (j : Nat)
    (h : s.taskStep ghi client j = some s') :
    s.ctl ≠ .crashed ∧ ∃ t page, s.tasks[j]? = some t ∧ s.pager.Pages[j + 1]? = some page ∧
      ((∃ e, t.step ghi client ghi.GetOpts page = some (.error e) ∧
          s' = { s with ctl := .crashed }) ∨
       (∃ t' page', t.step ghi client ghi.GetOpts page = some (.ok (t', page')) ∧
          s' = { s with pager := { Pages := s.pager.Pages.set (j + 1) page' },
                        tasks := s.tasks.set j t' })) := by
  unfold St.taskStep at h
  split at h
  · simp at h
  · rename_i hc
    refine ⟨hc, ?_⟩
    split at h
    · rename_i t page ht hp
      refine ⟨t, page, ht, hp, ?_⟩
      split at h
      · simp at h
      · rename_i e hst
        exact Or.inl ⟨e, hst, (Option.some.inj h).symm⟩
      · rename_i t' page' hst
        exact Or.inr ⟨t', page', hst, (Option.some.inj h).symm⟩
    · simp at h

theorem Task_step_fetched (ghi : GhIssues) (client : Client) (opts : IssueListByRepoOptions)
    (t t' : Task) (page page' : Page)
    (h : t.step ghi client opts page = some (.ok (t', page'))) :
    page'.Number = page.Number ∧ (page.Fetched = true → page'.Fetched = true) := by
  cases t with
  | line99 => simp [Task.step] at h; rw [← h.2]; simp
  | line103 r =>
    by_cases he : r.err = none
    · simp [Task.step, he] at h; rw [← h.2]; simp
    · simp [Task.step, he] at h; rw [← h.2]; simp
  | line105 r => simp [Task.step] at h; rw [← h.2]; simp
  | line107 r =>
    cases hr : r.response with
    | none => simp [Task.step, hr] at h
    | some resp => simp [Task.step, hr] at h; rw [← h.2]; simp
  | line108 r resp => simp [Task.step] at h; rw [← h.2]; simp
  | line110 r => simp [Task.step] at h; rw [← h.2]; simp
  | finished => simp [Task.step] at h

theorem Barrier_step (ghi : GhIssues) (client : Client) (s : St) (e : Event) (s' : St)
    (hs : Barrier s) (h : s.step ghi client e = some s') : Barrier s' := by
  cases e with
  | main =>
    rcases mainStep_cases s s' h with ⟨i, page, rest, hc, hp, ⟨_, rfl⟩ | ⟨_, rfl⟩⟩ |
      ⟨hc, ⟨hf, rfl⟩ | ⟨_, rfl⟩⟩
    · intro hr; simp at hr
    · intro hr; simp at hr
    · intro _
      exact (IsFetched_loop_iff s.pager.Pages).1 hf
    · exact hs
  | task j =>
    obtain ⟨hc, t, page, ht, hp, ⟨e, _, rfl⟩ | ⟨t', page', hst, rfl⟩⟩ :=
      taskStep_cases ghi client s s' j h
    · intro hr; simp at hr
    · intro hr q hq
      have hall := hs hr
      rcases List.mem_or_eq_of_mem_set hq with hq | hq
      · exact hall q hq
      · subst hq
        exact (Task_step_fetched ghi client _ t t' page _ hst).2
          (hall page (List.getElem?_mem hp))

theorem start_fanOut (ghi : GhIssues) (client : Client) (s0 : St)
    (h0 : GhIssues.IssuePager.start ghi client = .fanOut s0) :
    ∃ page1 : Page, s0 = { pager := { Pages := [page1] }, tasks := [], ctl := .loop page1.Next } ∧
      page1.Number = 1 ∧ page1.Fetched = true := by
  unfold GhIssues.IssuePager.start at h0
  simp only at h0
  cases hf : ghi.fetchPageIssue client ghi.GetOpts { Number := 1 } with
  | error e => simp [hf] at h0
  | ok pe =>
    obtain ⟨page, err⟩ := pe
    cases err with
    | some e => simp [hf] at h0
    | none =>
      simp [hf, Pager.Add] at h0
      refine ⟨page, h0.symm, ?_⟩
      simp [GhIssues.fetchPageIssue] at hf
      split at hf
      · simp at hf
      · rename_i resp hresp
        simp at hf
        obtain ⟨hpg, herr⟩ := hf
        rw [← hpg]
        simp [herr]

/-- The statements of a goroutine, run in a row, do to the page what the call of
`fetchPageIssue` does. -/
theorem Task_exec_eq_fetchPageIssue (ghi : GhIssues) (client : Client)
    (opts : IssueListByRepoOptions) (page : Page) :
    Task.exec ghi client opts 6 .line99 page =
      (ghi.fetchPageIssue client opts page).map Prod.fst := by
  simp only [Task.exec, Task.step, GhIssues.fetchPageIssue]
  cases he : (client.ListByRepo ghi.Owner ghi.Repo { opts with Page := page.Number }).err <;>
    cases hr : (client.ListByRepo ghi.Owner ghi.Repo
      { opts with Page := page.Number }).response <;>
    simp [Task.exec, Task.step, he, hr, Except.map]

/-! ## The completion barrier of IssuePager -/

/-- C4: in every interleaving, for every client, when `IssuePager` has returned (after a
page-1 fetch without error) every page of the pager has `Fetched == true`. -/
theorem IssuePager_barrier (ghi : GhIssues) (client : Client) (s0 : St)
    (h0 : GhIssues.IssuePager.start ghi client = .fanOut s0) (sched : List Event)
    (hret : (St.run ghi client sched s0).ctl = .returned) :
    ∀ page ∈ (St.run ghi client sched s0).pager.Pages, page.Fetched = true := by
  obtain ⟨page1, rfl, -, -⟩ := start_fanOut ghi client s0 h0
  have hinv : Barrier (St.run ghi client sched ⟨⟨[page1]⟩, [], .loop page1.Next⟩) :=
    run_invariant ghi client Barrier (Barrier_step ghi client) sched _
      (fun hr => by simp at hr)
  exact hinv hret

theorem IssuePager_barrier_witness :
    (St.run demoGhi threePageClient lastPageFirst threePageStart).ctl = .returned ∧
    ∀ page ∈ (St.run demoGhi threePageClient lastPageFirst threePageStart).pager.Pages,
      page.Fetched = true :=
  ⟨by decide, IssuePager_barrier demoGhi threePageClient threePageStart (by decide)
    lastPageFirst (by decide)⟩

/-! ## What a goroutine has done to its page -/

theorem SlotInv_step (ghi : GhIssues) (client : Client) (t t' : Task) (page page' : Page)
    (hinv : SlotInv ghi client t page)
    (h : t.step ghi client ghi.GetOpts page = some (.ok (t', page'))) :
    SlotInv ghi client t' page' := by
  cases t with
  | line99 =>
    simp [Task.step] at h
    obtain ⟨rfl, rfl⟩ := h
    exact ⟨rfl, hinv⟩
  | line103 r =>
    obtain ⟨hr, hf, hres⟩ := hinv
    by_cases he : r.err = none
    · simp [Task.step, he] at h
      obtain ⟨rfl, rfl⟩ := h
      exact ⟨hr, he, rfl, hres⟩
    · simp [Task.step, he] at h
      obtain ⟨rfl, rfl⟩ := h
      refine ⟨hr, fun h1 => absurd (hr ▸ h1) he, fun _ => ⟨hf, hres⟩⟩
  | line105 r =>
    obtain ⟨hr, he, hf, _⟩ := hinv
    simp [Task.step] at h
    obtain ⟨rfl, rfl⟩ := h
    refine ⟨hr, fun _ => ⟨hf, by rw [hr]⟩, fun h1 => absurd (hr ▸ he) h1⟩
  | line107 r =>
    obtain ⟨hr, hset⟩ := hinv
    cases hresp : r.response with
    | none => simp [Task.step, hresp] at h
    | some resp =>
      simp [Task.step, hresp] at h
      obtain ⟨⟨rfl, rfl⟩, rfl⟩ := h
      exact ⟨hr, hset⟩
  | line108 r resp =>
    obtain ⟨hr, hset⟩ := hinv
    simp [Task.step] at h
    obtain ⟨rfl, rfl⟩ := h
    exact ⟨hr, hset⟩
  | line110 r =>
    obtain ⟨hr, hset⟩ := hinv
    simp [Task.step] at h
    obtain ⟨rfl, rfl⟩ := h
    exact hset
  | finished => simp [Task.step] at h

theorem Slots_step (ghi : GhIssues) (client : Client) (s : St) (e : Event) (s' : St)
    (hs : Slots ghi client s) (h : s.step ghi client e = some s') : Slots ghi client s' := by
  obtain ⟨hlen, hslot⟩ := hs
  cases e with
  | main =>
    rcases mainStep_cases s s' h with ⟨i, page, rest, hc, hp, ⟨_, rfl⟩ | ⟨_, rfl⟩⟩ |
      ⟨hc, ⟨hf, rfl⟩ | ⟨_, rfl⟩⟩
    · refine ⟨by simp [Pager.Add, hlen], ?_⟩
      intro j t pg ht hpg
      simp only [Pager.Add] at hpg
      by_cases hj : j < s.tasks.length
      · rw [List.getElem?_append_left hj] at ht
        rw [List.getElem?_append_left (by omega)] at hpg
        exact hslot j t pg ht hpg
      · have hj' : j = s.tasks.length := by
          have := (List.getElem?_eq_some.1 ht).1
          simp at this
          omega
        subst hj'
        rw [List.getElem?_append_right (le_refl _)] at ht
        rw [List.getElem?_append_right (by omega)] at hpg
        simp at ht
        have : s.tasks.length + 1 - s.pager.Pages.length = 0 := by omega
        simp [this] at hpg
        subst ht hpg
        exact ⟨rfl, rfl⟩
    · exact ⟨hlen, hslot⟩
    · exact ⟨hlen, hslot⟩
    · exact ⟨hlen, hslot⟩
  | task j0 =>
    obtain ⟨hc, t0, page0, ht0, hp0, ⟨e, _, rfl⟩ | ⟨t', page', hst, rfl⟩⟩ :=
      taskStep_cases ghi client s s' j0 h
    · exact ⟨hlen, hslot⟩
    · refine ⟨by simp [hlen], ?_⟩
      intro j t pg ht hpg
      simp only at ht hpg
      by_cases hj : j0 = j
      · subst hj
        have h1 := (List.getElem?_eq_some.1 ht0).1
        have h2 := (List.getElem?_eq_some.1 hp0).1
        rw [List.getElem?_set_self h1] at ht
        rw [List.getElem?_set_self h2] at hpg
        simp at ht hpg
        subst ht hpg
        exact SlotInv_step ghi client t0 _ page0 _ (hslot j0 t0 page0 ht0 hp0) hst
      · rw [List.getElem?_set_ne hj] at ht
        rw [List.getElem?_set_ne (by omega)] at hpg
        exact hslot j t pg ht hpg

theorem SlotInv_failed (ghi : GhIssues) (client : Client) (t : Task) (page : Page)
    (hinv : SlotInv ghi client t page) (hfail : (fetchOf ghi client page.Number).err ≠ none) :
    page.Fetched = false ∧ page.Result = [] := by
  cases t with
  | line99 => exact hinv
  | line103 r => exact hinv.2
  | line105 r => exact absurd (hinv.1 ▸ hinv.2.1) hfail
  | line107 r => exact hinv.2.2 hfail
  | line108 r resp => exact hinv.2.2 hfail
  | line110 r => exact hinv.2.2 hfail
  | finished => exact hinv.2 hfail

theorem number_step (ghi : GhIssues) (client : Client) (k : Nat) (n : Int) (s : St)
    (e : Event) (s' : St)
    (hs : s.pager.Pages[k]?.map Page.Number = some n) (h : s.step ghi client e = some s') :
    s'.pager.Pages[k]?.map Page.Number = some n := by
  have hk : k < s.pager.Pages.length := by
    cases hk : s.pager.Pages[k]? with
    | none => simp [hk] at hs
    | some q => exact (List.getElem?_eq_some.1 hk).1
  cases e with
  | main =>
    rcases mainStep_cases s s' h with ⟨i, page, rest, hc, hp, ⟨_, rfl⟩ | ⟨_, rfl⟩⟩ |
      ⟨hc, ⟨hf, rfl⟩ | ⟨_, rfl⟩⟩
    · simp only [Pager.Add]
      rw [List.getElem?_append_left hk]
      exact hs
    · exact hs
    · exact hs
    · exact hs
  | task j0 =>
    obtain ⟨hc, t0, page0, ht0, hp0, ⟨e, _, rfl⟩ | ⟨t', page', hst, rfl⟩⟩ :=
      taskStep_cases ghi client s s' j0 h
    · exact hs
    · simp only
      by_cases hj : j0 + 1 = k
      · subst hj
        rw [List.getElem?_set_self hk]
        rw [hp0] at hs
        simp at hs ⊢
        rw [(Task_step_fetched ghi client _ t0 t' page0 page' hst).1]
        exact hs
      · rw [List.getElem?_set_ne hj]
        exact hs

theorem IsFetched_false_of_unfetched (pager : Pager) (k : Nat) (page : Page)
    (hk : pager.Pages[k]? = some page) (hf : page.Fetched = false) :
    pager.IsFetched.1 = false := by
  rw [← Bool.not_eq_true]
  intro h
  have := (IsFetched_loop_iff pager.Pages).1 h page (List.getElem?_mem hk)
  simp [hf] at this

theorem reachable_invariants (ghi : GhIssues) (client : Client) (s0 : St)
    (h0 : GhIssues.IssuePager.start ghi client = .fanOut s0) (sched : List Event) :
    Barrier (St.run ghi client sched s0) ∧ Slots ghi client (St.run ghi client sched s0) := by
  obtain ⟨page1, rfl, -, -⟩ := start_fanOut ghi client s0 h0
  refine run_invariant ghi client (fun s => Barrier s ∧ Slots ghi client s)
    (fun s e s' hs h => ⟨Barrier_step ghi client s e s' hs.1 h,
      Slots_step ghi client s e s' hs.2 h⟩) sched _ ⟨fun hr => by simp at hr, ?_⟩
  refine ⟨by simp, ?_⟩
  intro j t page ht
  simp at ht

/-! ## A failed fetch of a dispatched page -/

/-- C5: when the fetch of a dispatched page fails (any page appended by the loop, so
every page with a number above 1), the page keeps `Fetched == false` and no `Result`,
the goroutine ends without handing its error to anyone, and in every later state of
the run `IsFetched` is false and `IssuePager` has not returned. -/
theorem IssuePager_failed_fetch_blocks (ghi : GhIssues) (client : Client) (s0 : St)
    (h0 : GhIssues.IssuePager.start ghi client = .fanOut s0) (sched : List Event)
    (j : Nat) (page : Page)
    (hpage : (St.run ghi client sched s0).pager.Pages[j + 1]? = some page)
    (hfail : (fetchOf ghi client page.Number).err ≠ none) :
    page.Fetched = false ∧ page.Result = [] ∧
    (∀ r, Task.step ghi client ghi.GetOpts (.line110 r) page = some (.ok (.finished, page))) ∧
    ∀ later : List Event,
      (∃ page', (St.run ghi client (sched ++ later) s0).pager.Pages[j + 1]? = some page' ∧
        page'.Number = page.Number ∧ page'.Fetched = false ∧ page'.Result = []) ∧
      (St.run ghi client (sched ++ later) s0).pager.IsFetched.1 = false ∧
      (St.run ghi client (sched ++ later) s0).ctl ≠ .returned := by
  have key : ∀ later : List Event,
      ∃ page', (St.run ghi client (sched ++ later) s0).pager.Pages[j + 1]? = some page' ∧
        page'.Number = page.Number ∧ page'.Fetched = false ∧ page'.Result = [] := by
    intro later
    have hnum : (St.run ghi client (sched ++ later) s0).pager.Pages[j + 1]?.map Page.Number =
        some page.Number := by
      rw [run_append]
      exact run_invariant ghi client
        (fun s => s.pager.Pages[j + 1]?.map Page.Number = some page.Number)
        (fun s e s' hs h => number_step ghi client (j + 1) page.Number s e s' hs h)
        later _ (by simp [hpage])
    obtain ⟨hbar, hlen, hslot⟩ := reachable_invariants ghi client s0 h0 (sched ++ later)
    cases hp' : (St.run ghi client (sched ++ later) s0).pager.Pages[j + 1]? with
    | none => simp [hp'] at hnum
    | some page' =>
      have hn : page'.Number = page.Number := by simpa [hp'] using hnum
      have hj : j < (St.run ghi client (sched ++ later) s0).tasks.length := by
        have := (List.getElem?_eq_some.1 hp').1
        omega
      have hinv := hslot j _ page' (List.getElem?_eq_getElem hj) hp'
      exact ⟨page', rfl, hn, SlotInv_failed ghi client _ page' hinv (by rw [hn]; exact hfail)⟩
  have hnow := key []
  simp only [List.append_nil, hpage, Option.some.injEq] at hnow
  obtain ⟨page', rfl, -, hf, hr⟩ := hnow
  refine ⟨hf, hr, fun r => rfl, fun later => ?_⟩
  obtain ⟨page', hp', hn, hf', hr'⟩ := key later
  refine ⟨⟨page', hp', hn, hf', hr'⟩, IsFetched_false_of_unfetched _ _ page' hp' hf', ?_⟩
  intro hret
  have := (reachable_invariants ghi client s0 h0 (sched ++ later)).1 hret page'
    (List.getElem?_mem hp')
  simp [hf'] at this

theorem IssuePager_failed_fetch_blocks_witness :
    (St.run demoGhi brokenPageClient (.main :: .main :: wholeTask 0) brokenPageStart).tasks =
      [.finished] ∧
    ∀ later : List Event,
      (∃ page', (St.run demoGhi brokenPageClient ((.main :: .main :: wholeTask 0) ++ later)
          brokenPageStart).pager.Pages[0 + 1]? = some page' ∧
        page'.Number = 2 ∧ page'.Fetched = false ∧ page'.Result = []) ∧
      (St.run demoGhi brokenPageClient ((.main :: .main :: wholeTask 0) ++ later)
        brokenPageStart).pager.IsFetched.1 = false ∧
      (St.run demoGhi brokenPageClient ((.main :: .main :: wholeTask 0) ++ later)
        brokenPageStart).ctl ≠ .returned :=
  ⟨by decide,
   (IssuePager_failed_fetch_blocks demoGhi brokenPageClient brokenPageStart (by decide)
      (.main :: .main :: wholeTask 0) 0 ⟨2, 0, 0, false, []⟩ (by decide) (by decide)).2.2.2⟩

/-! ## The fan-out of IssuePager -/

theorem mem_pageRange (lo hi k : Int) : k ∈ pageRange lo hi ↔ lo ≤ k ∧ k ≤ hi := by
  simp only [pageRange, List.mem_map, List.mem_range]
  constructor
  · rintro ⟨a, ha, rfl⟩
    omega
  · rintro ⟨h1, h2⟩
    refine ⟨(k - lo).toNat, by omega, ?_⟩
    beta_reduce
    omega

theorem pageRange_sorted (lo hi : Int) : (pageRange lo hi).Pairwise (· < ·) := by
  unfold pageRange
  rw [List.pairwise_map]
  refine (List.pairwise_lt_range _).imp ?_
  intro a b h
  beta_reduce
  omega

theorem pageRange_empty (lo hi : Int) (h : hi < lo) : pageRange lo hi = [] := by
  have : (hi + 1 - lo).toNat = 0 := by omega
  simp [pageRange, this]

theorem pageRange_snoc (lo i : Int) (h : lo ≤ i) :
    pageRange lo i = pageRange lo (i - 1) ++ [i] := by
  have h1 : (i + 1 - lo).toNat = (i - 1 + 1 - lo).toNat + 1 := by omega
  have h2 : lo + ((i - 1 + 1 - lo).toNat : Int) = i := by omega
  simp only [pageRange, h1, List.range_succ, List.map_append, List.map_cons, List.map_nil, h2]

theorem pageRange_cons (lo hi : Int) (h : lo ≤ hi) :
    pageRange lo hi = lo :: pageRange (lo + 1) hi := by
  have h1 : (hi + 1 - lo).toNat = (hi + 1 - (lo + 1)).toNat + 1 := by omega
  simp only [pageRange, h1, List.range_succ_eq_map, List.map_cons, List.map_map]
  congr 1
  · simp
  · apply List.map_congr_left
    intro a _
    simp only [Function.comp_apply, Nat.cast_succ]
    omega

theorem pageRange_extends (lo hi : Int) (n : Nat) :
    ∀ i : Int, lo ≤ i → (hi + 1 - i).toNat = n → i ≤ hi + 1 →
      ∃ rest, pageRange lo (i - 1) ++ rest = pageRange lo hi := by
  induction n with
  | zero =>
    intro i _ hn hi'
    have : i - 1 = hi := by omega
    exact ⟨[], by simp [this]⟩
  | succ n ih =>
    intro i hlo hn hi'
    obtain ⟨rest, hrest⟩ := ih (i + 1) (by omega) (by omega) (by omega)
    refine ⟨i :: rest, ?_⟩
    rw [← hrest]
    have : i + 1 - 1 = i := by omega
    rw [this, pageRange_snoc lo i hlo]
    simp

theorem pageRange_length (lo hi : Int) : (pageRange lo hi).length = (hi + 1 - lo).toNat := by
  simp [pageRange]

theorem wrapInt_eq (x : Int) (h1 : minInt64 ≤ x) (h2 : x ≤ maxInt64) : wrapInt x = x := by
  unfold wrapInt
  unfold minInt64 at h1
  unfold maxInt64 at h2
  omega

theorem wrapInt_le (x : Int) : wrapInt x ≤ maxInt64 := by
  unfold wrapInt maxInt64
  omega

theorem FanInv_bound (page1 : Page) (s : St) (h : FanInv page1 s) :
    ∃ rest, s.numbers ++ rest = 1 :: pageRange page1.Next page1.Last := by
  obtain ⟨_, h⟩ := h
  cases hc : s.ctl with
  | loop i =>
    rw [hc] at h
    obtain ⟨hlo, hhi, hnum⟩ := h
    rw [hnum]
    by_cases hle : i ≤ page1.Last + 1
    · obtain ⟨rest, hrest⟩ := pageRange_extends page1.Next page1.Last _ i hlo rfl hle
      exact ⟨rest, by simp [hrest]⟩
    · have hi : i = page1.Next := by omega
      rw [pageRange_empty _ _ (by omega : i - 1 < page1.Next),
        pageRange_empty _ _ (by omega : page1.Last < page1.Next)]
      exact ⟨[], rfl⟩
  | wait => rw [hc] at h; exact ⟨[], by simp [h]⟩
  | returned => rw [hc] at h; exact ⟨[], by simp [h]⟩
  | crashed => rw [hc] at h; exact h

theorem numbers_set (pages : List Page) (k : Nat) (page page' : Page)
    (hk : pages[k]? = some page) (hn : page'.Number = page.Number) :
    (pages.set k page').map Page.Number = pages.map Page.Number := by
  rw [List.map_set, hn]
  apply List.ext_getElem?
  intro m
  by_cases hm : k = m
  · subst hm
    have hlt := (List.getElem?_eq_some.1 hk).1
    rw [List.getElem?_set_self (by simpa using hlt)]
    simp [hk]
  · rw [List.getElem?_set_ne hm]

theorem FanInv_step (ghi : GhIssues) (client : Client) (page1 : Page)
    (hmin : minInt64 ≤ page1.Next) (hmax : page1.Last < maxInt64) (s : St) (e : Event)
    (s' : St) (hs : FanInv page1 s) (h : s.step ghi client e = some s') : FanInv page1 s' := by
  have hbound := FanInv_bound page1 s hs
  obtain ⟨hhead, hctl⟩ := hs
  cases e with
  | main =>
    rcases mainStep_cases s s' h with ⟨i, page, rest, hc, hp, ⟨hi, rfl⟩ | ⟨hi, rfl⟩⟩ |
      ⟨hc, ⟨hf, rfl⟩ | ⟨_, rfl⟩⟩
    · rw [hc] at hctl
      obtain ⟨hlo, hhi, hnum⟩ := hctl
      have hpage : page = page1 := by simpa [hp] using hhead
      subst hpage
      have hw : wrapInt (i + 1) = i + 1 := wrapInt_eq _ (by omega) (by omega)
      rw [hw]
      refine ⟨by simp [Pager.Add, hp], ?_⟩
      refine ⟨by omega, Or.inl (by omega), ?_⟩
      have : i + 1 - 1 = i := by omega
      rw [this, pageRange_snoc _ i hlo]
      simp only [St.numbers, Pager.Add, List.map_append, List.map_cons, List.map_nil]
      simp only [St.numbers] at hnum
      rw [hnum]
      simp
    · rw [hc] at hctl
      obtain ⟨hlo, hhi, hnum⟩ := hctl
      have hpage : page = page1 := by simpa [hp] using hhead
      subst hpage
      refine ⟨hhead, ?_⟩
      show St.numbers _ = _
      simp only [St.numbers] at hnum ⊢
      rw [hnum]
      rcases hhi with hhi | hhi
      · have : i - 1 = page.Last := by omega
        rw [this]
      · rw [pageRange_empty _ _ (by omega : i - 1 < page.Next),
          pageRange_empty _ _ (by omega : page.Last < page.Next)]
    · rw [hc] at hctl
      exact ⟨hhead, hctl⟩
    · exact ⟨hhead, hctl⟩
  | task j0 =>
    obtain ⟨hc, t0, page0, ht0, hp0, ⟨e, _, rfl⟩ | ⟨t', page', hst, rfl⟩⟩ :=
      taskStep_cases ghi client s s' j0 h
    · exact ⟨hhead, hbound⟩
    · have hnum : (s.pager.Pages.set (j0 + 1) page').map Page.Number =
          s.pager.Pages.map Page.Number :=
        numbers_set _ _ page0 page' hp0 (Task_step_fetched ghi client _ t0 t' page0 page' hst).1
      refine ⟨?_, ?_⟩
      · cases hpg : s.pager.Pages with
        | nil => simp [hpg] at hhead
        | cons a rest => simpa [hpg] using hhead
      · simp only [St.numbers, hnum] at hctl ⊢
        exact hctl

theorem numbers_grow (ghi : GhIssues) (client : Client) (s : St) (e : Event) (s' : St)
    (h : s.step ghi client e = some s') : ∃ rest, s.numbers ++ rest = s'.numbers := by
  cases e with
  | main =>
    rcases mainStep_cases s s' h with ⟨i, page, rest, hc, hp, ⟨hi, rfl⟩ | ⟨hi, rfl⟩⟩ |
      ⟨hc, ⟨hf, rfl⟩ | ⟨_, rfl⟩⟩
    · exact ⟨[i], by simp [St.numbers, Pager.Add]⟩
    · exact ⟨[], by simp [St.numbers]⟩
    · exact ⟨[], by simp [St.numbers]⟩
    · exact ⟨[], by simp⟩
  | task j0 =>
    obtain ⟨hc, t0, page0, ht0, hp0, ⟨e, _, rfl⟩ | ⟨t', page', hst, rfl⟩⟩ :=
      taskStep_cases ghi client s s' j0 h
    · exact ⟨[], by simp [St.numbers]⟩
    · refine ⟨[], ?_⟩
      simp only [St.numbers, List.append_nil]
      exact (numbers_set _ _ page0 page' hp0
        (Task_step_fetched ghi client _ t0 t' page0 page' hst).1).symm

theorem loop_runs_out (ghi : GhIssues) (client : Client) (page1 : Page)
    (hmax : page1.Last < maxInt64) (n : Nat) :
    ∀ (i : Int) (ps : List Page) (ts : List Task), minInt64 ≤ i →
      (page1.Last + 1 - i).toNat = n →
      St.run ghi client (List.replicate (n + 1) .main) ⟨⟨page1 :: ps⟩, ts, .loop i⟩ =
        ⟨⟨page1 :: ps ++ (pageRange i page1.Last).map fun k => { Number := k }⟩,
          ts ++ List.replicate n .line99, .wait⟩ := by
  induction n with
  | zero =>
    intro i ps ts _ hn
    have hi : ¬ i ≤ page1.Last := by omega
    simp [St.run, St.step, St.mainStep, hi, pageRange_empty i page1.Last (by omega)]
  | succ n ih =>
    intro i ps ts hmin hn
    have hi : i ≤ page1.Last := by omega
    have hw : wrapInt (i + 1) = i + 1 := wrapInt_eq _ (by omega) (by omega)
    rw [List.replicate_succ, St.run]
    simp only [St.step, St.mainStep, hi, if_true, Pager.Add, hw]
    have h := ih (i + 1) (ps ++ [({ Number := i } : Page)]) (ts ++ [Task.line99])
      (by omega) (by omega)
    simp only [List.cons_append, List.append_assoc] at h ⊢
    rw [h, pageRange_cons i page1.Last hi]
    simp [List.replicate_succ]

theorem start_fanOut_page (ghi : GhIssues) (client : Client) (s0 : St)
    (h0 : GhIssues.IssuePager.start ghi client = .fanOut s0) :
    ∃ resp, (fetchOf ghi client 1).response = some resp ∧ (fetchOf ghi client 1).err = none ∧
      s0 = ⟨⟨[⟨1, resp.NextPage, resp.LastPage, true, (fetchOf ghi client 1).issues⟩]⟩, [],
        .loop resp.NextPage⟩ := by
  unfold GhIssues.IssuePager.start at h0
  simp only [GhIssues.fetchPageIssue] at h0
  unfold fetchOf
  cases hr : (client.ListByRepo ghi.Owner ghi.Repo { ghi.GetOpts with Page := 1 }).response with
  | none => simp [hr] at h0
  | some resp =>
    cases he : (client.ListByRepo ghi.Owner ghi.Repo { ghi.GetOpts with Page := 1 }).err with
    | some e => simp [hr, he] at h0
    | none =>
      simp [hr, he, Pager.Add] at h0
      exact ⟨resp, rfl, rfl, h0.symm⟩

/-- The fan-out when the loop counter cannot wrap. After a successful page-1 fetch whose
response announces `NextPage` and a `LastPage` below the largest `int`, the loop appends
one page for each number of `NextPage..LastPage`, in ascending order, each with its
fetch dispatched and not yet run; whatever the interleaving, the page numbers of the
pager only grow at the end, stay within `1, NextPage, ..., LastPage` and are exactly
these once the loop is over; when `LastPage < NextPage` the pager stays the single
fetched page 1 without any dispatched fetch. -/
theorem IssuePager_fan_out_in_range (ghi : GhIssues) (client : Client) (s0 : St)
    (h0 : GhIssues.IssuePager.start ghi client = .fanOut s0) :
    ∃ resp : Response, (fetchOf ghi client 1).response = some resp ∧
      s0 = ⟨⟨[⟨1, resp.NextPage, resp.LastPage, true, (fetchOf ghi client 1).issues⟩]⟩, [],
        .loop resp.NextPage⟩ ∧
      (minInt64 ≤ resp.NextPage → resp.LastPage < maxInt64 →
        St.run ghi client
            (List.replicate ((resp.LastPage + 1 - resp.NextPage).toNat + 1) .main) s0 =
          ⟨⟨⟨1, resp.NextPage, resp.LastPage, true, (fetchOf ghi client 1).issues⟩ ::
              (pageRange resp.NextPage resp.LastPage).map fun k => { Number := k }⟩,
            List.replicate (resp.LastPage + 1 - resp.NextPage).toNat .line99, .wait⟩ ∧
        ∀ sched : List Event,
          (∃ rest, (St.run ghi client sched s0).numbers ++ rest =
            1 :: pageRange resp.NextPage resp.LastPage) ∧
          (St.run ghi client sched s0).tasks.length + 1 =
            (St.run ghi client sched s0).pager.Pages.length ∧
          ((St.run ghi client sched s0).ctl = .wait ∨
              (St.run ghi client sched s0).ctl = .returned →
            (St.run ghi client sched s0).numbers =
              1 :: pageRange resp.NextPage resp.LastPage) ∧
          (∀ later : List Event, ∃ rest, (St.run ghi client sched s0).numbers ++ rest =
            (St.run ghi client (sched ++ later) s0).numbers) ∧
          (resp.LastPage < resp.NextPage →
            (St.run ghi client sched s0).pager =
              ⟨[⟨1, resp.NextPage, resp.LastPage, true, (fetchOf ghi client 1).issues⟩]⟩ ∧
            (St.run ghi client sched s0).tasks = [] ∧
            (St.run ghi client sched s0).pager.IsFetched.1 = true)) := by
  obtain ⟨resp, hresp, -, hs0⟩ := start_fanOut_page ghi client s0 h0
  refine ⟨resp, hresp, hs0, fun hmin hmax => ⟨?_, ?_⟩⟩
  · rw [hs0]
    have := loop_runs_out ghi client
      ⟨1, resp.NextPage, resp.LastPage, true, (fetchOf ghi client 1).issues⟩ hmax _
      resp.NextPage [] [] hmin rfl
    simpa using this
  intro sched
  have hfan : FanInv ⟨1, resp.NextPage, resp.LastPage, true, (fetchOf ghi client 1).issues⟩
      (St.run ghi client sched s0) := by
    refine run_invariant ghi client (FanInv _) (FanInv_step ghi client _ hmin hmax) sched s0 ?_
    subst hs0
    refine ⟨rfl, le_refl _, Or.inr rfl, ?_⟩
    simp [St.numbers, pageRange_empty resp.NextPage (resp.NextPage - 1) (by omega)]
  have hlen := (reachable_invariants ghi client s0 h0 sched).2.1
  have hbound := FanInv_bound _ _ hfan
  refine ⟨hbound, hlen, ?_, ?_, ?_⟩
  · rintro (hc | hc)
    · have := hfan.2
      rw [hc] at this
      exact this
    · have := hfan.2
      rw [hc] at this
      exact this
  · intro later
    rw [run_append]
    exact run_invariant ghi client
      (fun s => ∃ rest, (St.run ghi client sched s0).numbers ++ rest = s.numbers)
      (fun s e s' hs h => by
        obtain ⟨r1, h1⟩ := hs
        obtain ⟨r2, h2⟩ := numbers_grow ghi client s e s' h
        exact ⟨r1 ++ r2, by rw [← h2, ← h1, List.append_assoc]⟩)
      later _ ⟨[], by simp⟩
  · intro hlt
    obtain ⟨rest, hrest⟩ := hbound
    simp only at hrest
    rw [pageRange_empty _ _ hlt] at hrest
    have hhead := hfan.1
    generalize St.run ghi client sched s0 = s at *
    obtain ⟨⟨pages⟩, tasks, ctl⟩ := s
    simp only [St.numbers] at hrest hhead hlen ⊢
    cases pages with
    | nil => simp at hhead
    | cons a tl =>
      simp at hhead
      subst hhead
      cases tl with
      | cons b tl' =>
        have := congrArg List.length hrest
        simp at this
      | nil =>
        simp at hlen
        exact ⟨rfl, hlen, by simp [Pager.IsFetched, Pager.IsFetched.loop]⟩

theorem IssuePager_fan_out_in_range_witness :
    St.run demoGhi threePageClient (List.replicate 3 .main) threePageStart =
      ⟨⟨[⟨1, 2, 3, true, [issueA]⟩, ⟨2, 0, 0, false, []⟩, ⟨3, 0, 0, false, []⟩]⟩,
        [.line99, .line99], .wait⟩ ∧
    ∀ sched : List Event,
      ((St.run demoGhi threePageClient sched threePageStart).ctl = .wait ∨
          (St.run demoGhi threePageClient sched threePageStart).ctl = .returned →
        (St.run demoGhi threePageClient sched threePageStart).numbers = [1, 2, 3]) := by
  obtain ⟨resp, hresp, -, h⟩ :=
    IssuePager_fan_out_in_range demoGhi threePageClient threePageStart (by decide)
  have hr : resp = ⟨2, 3⟩ := by
    have h1 : (fetchOf demoGhi threePageClient 1).response = some ⟨2, 3⟩ := by decide
    rw [h1] at hresp
    exact (Option.some.inj hresp).symm
  subst hr
  obtain ⟨-, hall⟩ := h (by decide) (by decide)
  refine ⟨by decide, fun sched hc => ?_⟩
  have := (hall sched).2.2.1 hc
  rw [this]
  decide

/-! ## The loop counter at the largest int -/

theorem endless_step (ghi : GhIssues) (client : Client) (page1 : Page)
    (hlast : page1.Last = maxInt64) (s : St) (e : Event) (s' : St)
    (hs : s.pager.Pages.head? = some page1 ∧
      ((∃ i, s.ctl = .loop i ∧ i ≤ maxInt64) ∨ s.ctl = .crashed))
    (h : s.step ghi client e = some s') :
    s'.pager.Pages.head? = some page1 ∧
      ((∃ i, s'.ctl = .loop i ∧ i ≤ maxInt64) ∨ s'.ctl = .crashed) := by
  obtain ⟨hhead, hctl⟩ := hs
  cases e with
  | main =>
    rcases mainStep_cases s s' h with ⟨i, page, rest, hc, hp, ⟨hi, rfl⟩ | ⟨hi, rfl⟩⟩ |
      ⟨hc, _⟩
    · exact ⟨by simp [Pager.Add, hp] at hhead ⊢; exact hhead,
        Or.inl ⟨_, rfl, wrapInt_le _⟩⟩
    · have hpage : page = page1 := by simpa [hp] using hhead
      subst hpage
      rcases hctl with ⟨i', hc', hi'⟩ | hc'
      · rw [hc] at hc'
        cases hc'
        exact absurd (hlast ▸ hi') hi
      · rw [hc] at hc'
        cases hc'
    · rcases hctl with ⟨i', hc', _⟩ | hc'
      · rw [hc] at hc'
        cases hc'
      · rw [hc] at hc'
        cases hc'
  | task j0 =>
    obtain ⟨hc, t0, page0, ht0, hp0, ⟨e, _, rfl⟩ | ⟨t', page', hst, rfl⟩⟩ :=
      taskStep_cases ghi client s s' j0 h
    · exact ⟨hhead, Or.inr rfl⟩
    · refine ⟨?_, hctl⟩
      cases hpg : s.pager.Pages with
      | nil => simp [hpg] at hhead
      | cons a rest => simpa [hpg] using hhead

/-- C10, at a page-1 response whose `NextPage` and `LastPage` are both the largest
`int`: the claim has the single page of that number appended; the code appends it,
`i++` wraps to the smallest `int`, the test `i <= page.Last` holds again, and the loop
goes on appending pages with negative numbers: it never reaches the wait loop. -/
theorem IssuePager_fan_out_wraps :
    GhIssues.IssuePager.start demoGhi hugePageClient = .fanOut hugePageStart ∧
    pageRange maxInt64 maxInt64 = [maxInt64] ∧
    St.run demoGhi hugePageClient [.main, .main, .main] hugePageStart =
      ⟨⟨[⟨1, maxInt64, maxInt64, true, [issueA]⟩, { Number := maxInt64 },
          { Number := minInt64 }, { Number := minInt64 + 1 }]⟩,
        [.line99, .line99, .line99], .loop (minInt64 + 2)⟩ ∧
    ∀ sched : List Event,
      (St.run demoGhi hugePageClient sched hugePageStart).ctl ≠ .wait ∧
      (St.run demoGhi hugePageClient sched hugePageStart).ctl ≠ .returned := by
  refine ⟨by decide, by decide, by decide, fun sched => ?_⟩
  have h := run_invariant demoGhi hugePageClient _
    (endless_step demoGhi hugePageClient ⟨1, maxInt64, maxInt64, true, [issueA]⟩ rfl)
    sched hugePageStart ⟨rfl, Or.inl ⟨_, rfl, by decide⟩⟩
  rcases h.2 with ⟨i, hc, _⟩ | hc <;> rw [hc] <;> simp

/-! ## A repository of a single page -/

/-- C2, at the answer `nextPage == 0, lastPage == 0`: the page-1 fetch succeeds, the
loop of line 124 then starts at `i = 0` and runs once, so a second page, numbered 0,
is appended with its fetch dispatched; the pager that `IssuePager` returns holds the
two pages 1 and 0. -/
theorem IssuePager_single_page_dispatches :
    GhIssues.IssuePager.start demoGhi singlePageClient = .fanOut singlePageStart ∧
    St.run demoGhi singlePageClient [.main] singlePageStart =
      ⟨⟨[⟨1, 0, 0, true, [issueA]⟩, ⟨0, 0, 0, false, []⟩]⟩, [.line99], .loop 1⟩ ∧
    St.run demoGhi singlePageClient singlePageRun singlePageStart =
      ⟨⟨[⟨1, 0, 0, true, [issueA]⟩, ⟨0, 0, 0, true, [issueA]⟩]⟩, [.finished], .returned⟩ := by
  decide

/-- C1, at `N = 1`: every fetch succeeds, the repository has the single page `[issueA]`,
and `reportIssues` prints that record twice. -/
theorem reportIssues_single_page_twice :
    reportIssues demoParse singlePageClient "yml" "cli" "" "" "open" singlePageRun =
      ([], .printed [issueA, issueA]) := by
  decide

/-! ## A page-1 fetch that fails -/

/-- C3, at an error without a response object: line 107 dereferences the nil
response, so `IssuePager` panics instead of returning the error. -/
theorem IssuePager_page1_error_without_response :
    GhIssues.IssuePager.start demoGhi offlineClient = .panicked ∧
    demoGhi.fetchPageIssue offlineClient demoGhi.GetOpts { Number := 1 } =
      .error Panic.nilResponse ∧
    ∀ sched : List Event,
      reportIssues demoParse offlineClient "yml" "cli" "" "" "open" sched =
        ([], .panicked) := by
  refine ⟨by decide, rfl, fun sched => ?_⟩
  rfl

/-- Whenever the page-1 fetch returns no response object, `IssuePager` panics. -/
theorem start_panics_without_response (ghi : GhIssues) (client : Client)
    (h : (fetchOf ghi client 1).response = none) :
    GhIssues.IssuePager.start ghi client = .panicked := by
  unfold fetchOf at h
  simp [GhIssues.IssuePager.start, GhIssues.fetchPageIssue, h]

/-- When the page-1 fetch fails and the response object is there, `IssuePager` returns
that error with a pager holding the single, unfetched, empty page 1. -/
theorem start_fails_with_response (ghi : GhIssues) (client : Client) (resp : Response)
    (err : Error) (hr : (fetchOf ghi client 1).response = some resp)
    (he : (fetchOf ghi client 1).err = some err) :
    GhIssues.IssuePager.start ghi client =
      .failed ⟨[⟨1, resp.NextPage, resp.LastPage, false, []⟩]⟩ err := by
  unfold fetchOf at hr he
  simp [GhIssues.IssuePager.start, GhIssues.fetchPageIssue, hr, he, Pager.Add]

theorem start_fails_with_response_witness :
    GhIssues.IssuePager.start demoGhi refusingClient =
      .failed ⟨[⟨1, 0, 0, false, []⟩]⟩ (Error.base "403 Forbidden") :=
  start_fails_with_response demoGhi refusingClient ⟨0, 0⟩ _ (by decide) (by decide)

theorem start_panics_without_response_witness :
    GhIssues.IssuePager.start demoGhi offlineClient = .panicked :=
  start_panics_without_response demoGhi offlineClient (by decide)

/-! ## The order of the records when every fetch succeeds -/

/-- The record order for a repository whose page 1 announces next 2 and last `N` and
whose fetches all succeed with the records `recs n`: in every interleaving, once
`IssuePager` has returned and every goroutine has ended, the records of the pager are
`recs 1 ++ recs 2 ++ ... ++ recs N`, and when these all carry their `UpdatedAt`,
`reportIssues` prints those that pass the range filter, in that order. `N` is below the
largest `int` (at the largest `int` the loop does not end). -/
theorem IssuePager_records_in_page_order (ghi : GhIssues) (client : Client) (s0 : St)
    (h0 : GhIssues.IssuePager.start ghi client = .fanOut s0)
    (N : Int) (hN : N < maxInt64) (recs : Int → List Issue)
    (hfirst : fetchOf ghi client 1 = ⟨recs 1, some ⟨2, N⟩, none⟩)
    (hrest : ∀ n, 2 ≤ n → n ≤ N →
      (fetchOf ghi client n).err = none ∧ (fetchOf ghi client n).issues = recs n)
    (sched : List Event) (hret : (St.run ghi client sched s0).ctl = .returned)
    (hdone : ∀ t ∈ (St.run ghi client sched s0).tasks, t = Task.finished) :
    (St.run ghi client sched s0).numbers = 1 :: pageRange 2 N ∧
    records (St.run ghi client sched s0).pager = ((1 :: pageRange 2 N).map recs).flatten ∧
    ((∀ issue ∈ ((1 :: pageRange 2 N).map recs).flatten, issue.UpdatedAt ≠ none) →
      reportIssues.report ghi (St.run ghi client sched s0).pager =
        ⟨(((1 :: pageRange 2 N).map recs).flatten).filter (passesRange ghi.To),
          ((((1 :: pageRange 2 N).map recs).flatten).filter (passesRange ghi.To)).length,
          none⟩) := by
  obtain ⟨resp, hresp, herr, hs0⟩ := start_fanOut_page ghi client s0 h0
  rw [hfirst] at hresp hs0
  simp only [Option.some.injEq] at hresp
  subst hresp
  simp only at hs0
  have hfan : FanInv ⟨1, 2, N, true, recs 1⟩ (St.run ghi client sched s0) := by
    refine run_invariant ghi client _
      (FanInv_step ghi client _ (by simp [minInt64]) hN) sched s0 ?_
    subst hs0
    refine ⟨rfl, le_refl _, Or.inr rfl, ?_⟩
    simp [St.numbers, pageRange_empty 2 1 (by omega)]
  obtain ⟨-, hlen, hslot⟩ := reachable_invariants ghi client s0 h0 sched
  have hnum : (St.run ghi client sched s0).numbers = 1 :: pageRange 2 N := by
    have := hfan.2
    rw [hret] at this
    exact this
  have hhead := hfan.1
  generalize St.run ghi client sched s0 = s at *
  have hres : ∀ page ∈ s.pager.Pages, page.Result = recs page.Number := by
    intro page hmem
    obtain ⟨k, hk⟩ := List.mem_iff_getElem?.1 hmem
    cases k with
    | zero =>
      cases hp : s.pager.Pages with
      | nil => simp [hp] at hk
      | cons a tl =>
        simp [hp] at hk hhead
        subst hk hhead
        rfl
    | succ j =>
      have hj : j < s.tasks.length := by
        have := (List.getElem?_eq_some.1 hk).1
        omega
      have hinv := hslot j _ page (List.getElem?_eq_getElem hj) hk
      rw [hdone _ (List.getElem_mem hj)] at hinv
      have hn : page.Number ∈ 1 :: pageRange 2 N := by
        rw [← hnum]
        exact List.mem_map_of_mem _ hmem
      have hok : (fetchOf ghi client page.Number).err = none ∧
          (fetchOf ghi client page.Number).issues = recs page.Number := by
        rcases List.mem_cons.1 hn with h1 | h1
        · rw [h1, hfirst]
          exact ⟨rfl, rfl⟩
        · exact hrest _ ((mem_pageRange _ _ _).1 h1).1 ((mem_pageRange _ _ _).1 h1).2
      rw [(hinv.1 hok.1).2, hok.2]
  have hrec : records s.pager = ((1 :: pageRange 2 N).map recs).flatten := by
    rw [← hnum]
    simp only [records, St.numbers, List.map_map]
    congr 1
    exact List.map_congr_left hres
  refine ⟨hnum, hrec, fun hd => ?_⟩
  rw [reportIssues_filter_eq ghi s.pager (by rw [hrec]; exact hd), hrec]

theorem IssuePager_records_in_page_order_witness :
    (St.run demoGhi threePageClient lastPageFirst threePageStart).numbers =
      1 :: pageRange 2 3 ∧
    records (St.run demoGhi threePageClient lastPageFirst threePageStart).pager =
      ((1 :: pageRange 2 3).map threePageRecs).flatten ∧
    reportIssues.report demoGhi
        (St.run demoGhi threePageClient lastPageFirst threePageStart).pager =
      ⟨[issueA, issueB, issueC], 3, none⟩ := by
  obtain ⟨h1, h2, h3⟩ :=
    IssuePager_records_in_page_order demoGhi threePageClient threePageStart (by decide) 3
      (by decide) threePageRecs (by decide)
      (fun n h1 h2 => by
        have h : n = 2 ∨ n = 3 := by omega
        rcases h with rfl | rfl <;> decide)
      lastPageFirst (by decide) (by decide)
  refine ⟨h1, h2, ?_⟩
  rw [h3 (by decide)]
  decide

theorem threePage_records :
    ((1 :: pageRange 2 3).map threePageRecs).flatten = [issueA, issueB, issueC] := by
  decide

/-- Line 104 sets `Fetched` before line 105 stores `Result`: a poll that falls between
the two lets `IssuePager` return, and the traversal of `reportIssues` then finds page 3
without its records. -/
theorem reportIssues_between_flag_and_result :
    (St.run demoGhi threePageClient returnBeforeResult threePageStart).tasks =
      [.finished, .line105 ⟨[issueC], some ⟨0, 0⟩, none⟩] ∧
    reportIssues demoParse threePageClient "yml" "cli" "" "" "open" returnBeforeResult =
      ([], .printed [issueA, issueB]) := by
  decide

/-! ## IssuePager returns when every fetch succeeds -/

theorem taskStep_at (ghi : GhIssues) (client : Client) (page1 : Page) (ps1 ps2 : List Page)
    (ts1 ts2 : List Task) (t t' : Task) (page page' : Page) (ctl : Ctl)
    (hlen : ps1.length = ts1.length) (hc : ctl ≠ .crashed)
    (hst : t.step ghi client ghi.GetOpts page = some (.ok (t', page'))) :
    St.step ghi client ⟨⟨page1 :: ps1 ++ page :: ps2⟩, ts1 ++ t :: ts2, ctl⟩
        (.task ts1.length) =
      some ⟨⟨page1 :: ps1 ++ page' :: ps2⟩, ts1 ++ t' :: ts2, ctl⟩ := by
  have h1 : (ts1 ++ t :: ts2)[ts1.length]? = some t := by
    rw [List.getElem?_append_right (le_refl _)]
    simp
  have h2 : (page1 :: ps1 ++ page :: ps2)[ts1.length + 1]? = some page := by
    rw [List.getElem?_append_right (by simp [hlen])]
    simp [hlen]
  have h3 : (page1 :: ps1 ++ page :: ps2).set (ts1.length + 1) page' =
      page1 :: ps1 ++ page' :: ps2 := by
    rw [← hlen]
    simp
  have h4 : (ts1 ++ t :: ts2).set ts1.length t' = ts1 ++ t' :: ts2 := by simp
  simp only [St.step, St.taskStep, hc, if_false, h1, h2, hst, h3, h4]

theorem wholeTask_run (ghi : GhIssues) (client : Client) (page1 : Page) (ps1 ps2 : List Page)
    (ts1 ts2 : List Task) (k : Int) (hlen : ps1.length = ts1.length)
    (hr : (fetchOf ghi client k).response ≠ none) (he : (fetchOf ghi client k).err = none) :
    St.run ghi client (wholeTask ts1.length)
        ⟨⟨page1 :: ps1 ++ { Number := k } :: ps2⟩, ts1 ++ .line99 :: ts2, .wait⟩ =
      ⟨⟨page1 :: ps1 ++ donePage ghi client k :: ps2⟩, ts1 ++ .finished :: ts2, .wait⟩ := by
  cases hresp : (fetchOf ghi client k).response with
  | none => exact absurd hresp hr
  | some resp =>
    have hw : Ctl.wait ≠ Ctl.crashed := by simp
    have s1 : Task.step ghi client ghi.GetOpts .line99 { Number := k } =
        some (.ok (.line103 (fetchOf ghi client k), { Number := k })) := rfl
    have s2 : Task.step ghi client ghi.GetOpts (.line103 (fetchOf ghi client k))
        { Number := k } =
        some (.ok (.line105 (fetchOf ghi client k), ⟨k, 0, 0, true, []⟩)) := by
      simp [Task.step, he]
    have s3 : Task.step ghi client ghi.GetOpts (.line105 (fetchOf ghi client k))
        ⟨k, 0, 0, true, []⟩ =
        some (.ok (.line107 (fetchOf ghi client k),
          ⟨k, 0, 0, true, (fetchOf ghi client k).issues⟩)) := rfl
    have s4 : Task.step ghi client ghi.GetOpts (.line107 (fetchOf ghi client k))
        ⟨k, 0, 0, true, (fetchOf ghi client k).issues⟩ =
        some (.ok (.line108 (fetchOf ghi client k) resp,
          ⟨k, resp.NextPage, 0, true, (fetchOf ghi client k).issues⟩)) := by
      simp [Task.step, hresp]
    have s5 : Task.step ghi client ghi.GetOpts (.line108 (fetchOf ghi client k) resp)
        ⟨k, resp.NextPage, 0, true, (fetchOf ghi client k).issues⟩ =
        some (.ok (.line110 (fetchOf ghi client k),
          ⟨k, resp.NextPage, resp.LastPage, true, (fetchOf ghi client k).issues⟩)) := rfl
    have s6 : Task.step ghi client ghi.GetOpts (.line110 (fetchOf ghi client k))
        ⟨k, resp.NextPage, resp.LastPage, true, (fetchOf ghi client k).issues⟩ =
        some (.ok (.finished,
          ⟨k, resp.NextPage, resp.LastPage, true, (fetchOf ghi client k).issues⟩)) := rfl
    have hd : donePage ghi client k =
        ⟨k, resp.NextPage, resp.LastPage, true, (fetchOf ghi client k).issues⟩ := by
      simp [donePage, hresp]
    simp only [wholeTask, List.replicate, St.run, hd,
      taskStep_at ghi client page1 ps1 ps2 ts1 ts2 _ _ _ _ .wait hlen hw s1,
      taskStep_at ghi client page1 ps1 ps2 ts1 ts2 _ _ _ _ .wait hlen hw s2,
      taskStep_at ghi client page1 ps1 ps2 ts1 ts2 _ _ _ _ .wait hlen hw s3,
      taskStep_at ghi client page1 ps1 ps2 ts1 ts2 _ _ _ _ .wait hlen hw s4,
      taskStep_at ghi client page1 ps1 ps2 ts1 ts2 _ _ _ _ .wait hlen hw s5,
      taskStep_at ghi client page1 ps1 ps2 ts1 ts2 _ _ _ _ .wait hlen hw s6]

theorem inTurn_run (ghi : GhIssues) (client : Client) (page1 : Page) :
    ∀ (todo : List Int) (ps1 : List Page) (ts1 : List Task), ps1.length = ts1.length →
      (∀ k ∈ todo, (fetchOf ghi client k).response ≠ none ∧ (fetchOf ghi client k).err = none) →
      St.run ghi client (inTurn ts1.length todo.length)
          ⟨⟨page1 :: ps1 ++ todo.map fun k => { Number := k }⟩,
            ts1 ++ List.replicate todo.length .line99, .wait⟩ =
        ⟨⟨page1 :: ps1 ++ todo.map (donePage ghi client)⟩,
          ts1 ++ List.replicate todo.length .finished, .wait⟩ := by
  intro todo
  induction todo with
  | nil => intro ps1 ts1 _ _; simp [inTurn, St.run]
  | cons k rest ih =>
    intro ps1 ts1 hlen hok
    have hk := hok k (List.mem_cons_self _ _)
    have h := ih (ps1 ++ [donePage ghi client k]) (ts1 ++ [.finished]) (by simp [hlen])
      (fun n hn => hok n (List.mem_cons_of_mem _ hn))
    simp only [List.length_append, List.length_singleton, List.append_assoc,
      List.singleton_append, List.cons_append] at h
    simp only [inTurn, List.length_cons, List.range'_succ, List.flatMap_cons, run_append,
      List.map_cons, List.replicate_succ, List.cons_append]
    have hw := wholeTask_run ghi client page1 ps1 (rest.map fun k => { Number := k }) ts1
      (List.replicate rest.length .line99) k hlen hk.1 hk.2
    simp only [List.cons_append] at hw
    rw [hw]
    exact h

/-- For a repository whose page 1 announces next 2 and last `N`, below the largest
`int`, and whose fetches of the pages `2..N` all succeed, `IssuePager` does return: when the loop runs to its end,
the goroutines then run one after the other and the wait loop polls, it returns the
pager of the fetched pages `1, 2, ..., N`, every goroutine ended. -/
theorem IssuePager_returns_when_fetches_succeed (ghi : GhIssues) (client : Client) (s0 : St)
    (h0 : GhIssues.IssuePager.start ghi client = .fanOut s0) (N : Int) (hN : N < maxInt64)
    (hfirst : (fetchOf ghi client 1).response = some ⟨2, N⟩)
    (hrest : ∀ n, 2 ≤ n → n ≤ N →
      (fetchOf ghi client n).response ≠ none ∧ (fetchOf ghi client n).err = none) :
    St.run ghi client
        (List.replicate ((N + 1 - 2).toNat + 1) .main ++ inTurn 0 (N + 1 - 2).toNat ++ [.main])
        s0 =
      ⟨⟨⟨1, 2, N, true, (fetchOf ghi client 1).issues⟩ ::
          (pageRange 2 N).map (donePage ghi client)⟩,
        List.replicate (N + 1 - 2).toNat .finished, .returned⟩ := by
  obtain ⟨resp, hresp, herr, hs0⟩ := start_fanOut_page ghi client s0 h0
  rw [hfirst] at hresp
  simp only [Option.some.injEq] at hresp
  subst hresp
  simp only at hs0
  subst hs0
  have h1 := loop_runs_out ghi client ⟨1, 2, N, true, (fetchOf ghi client 1).issues⟩ hN
    (N + 1 - 2).toNat 2 [] [] (by simp [minInt64]) rfl
  have h2 := inTurn_run ghi client ⟨1, 2, N, true, (fetchOf ghi client 1).issues⟩
    (pageRange 2 N) [] [] rfl
    (fun k hk => hrest k ((mem_pageRange _ _ _).1 hk).1 ((mem_pageRange _ _ _).1 hk).2)
  simp only [pageRange_length, List.length_nil, List.nil_append] at h2
  simp only [List.nil_append] at h1
  rw [List.append_assoc, run_append, h1, run_append, h2]
  have hall : Pager.IsFetched.loop
      (⟨1, 2, N, true, (fetchOf ghi client 1).issues⟩ ::
        (pageRange 2 N).map (donePage ghi client)) = true := by
    rw [IsFetched_loop_iff]
    intro page hp
    rcases List.mem_cons.1 hp with rfl | hp
    · rfl
    · obtain ⟨k, hk, rfl⟩ := List.mem_map.1 hp
      have hr := (hrest k ((mem_pageRange _ _ _).1 hk).1 ((mem_pageRange _ _ _).1 hk).2).1
      cases hresp : (fetchOf ghi client k).response with
      | none => exact absurd hresp hr
      | some r => simp [donePage, hresp]
  simp [St.run, St.step, St.mainStep, Pager.IsFetched, hall]

theorem IssuePager_returns_when_fetches_succeed_witness :
    St.run demoGhi threePageClient
        (List.replicate ((3 + 1 - 2 : Int).toNat + 1) .main ++
          inTurn 0 (3 + 1 - 2 : Int).toNat ++ [.main])
        threePageStart =
      ⟨⟨⟨1, 2, 3, true, (fetchOf demoGhi threePageClient 1).issues⟩ ::
          (pageRange 2 3).map (donePage demoGhi threePageClient)⟩,
        List.replicate (3 + 1 - 2 : Int).toNat .finished, .returned⟩ :=
  IssuePager_returns_when_fetches_succeed demoGhi threePageClient threePageStart
    (by decide) 3 (by decide) (by decide)
    (fun n h1 h2 => by
      have h : n = 2 ∨ n = 3 := by omega
      rcases h with rfl | rfl <;> decide)

/-! ## The sequential pager -/

/-- The sibling pager stops at `NextPage == 0`: on a one-page answer it makes one
request and returns the cards of that page once. -/
theorem FetchCards_single_page (client : ProjectsClient) (columnID : Int) (fuel : Nat)
    (last : Int) (hr : (client.ListProjectCards columnID 1).response = some ⟨0, last⟩)
    (he : (client.ListProjectCards columnID 1).err = none) :
    ProjectCards.FetchCards client columnID (fuel + 1) =
      ([1], some (.ok (.ok (client.ListProjectCards columnID 1).cards))) := by
  simp [ProjectCards.FetchCards, ProjectCards.FetchCards.loop, hr, he]

/-- The sibling pager returns a failed fetch as an error without reading the response. -/
theorem FetchCards_error (client : ProjectsClient) (columnID : Int) (fuel : Nat)
    (err : Error) (he : (client.ListProjectCards columnID 1).err = some err) :
    ProjectCards.FetchCards client columnID (fuel + 1) =
      ([1], some (.ok (.error (Error.wrap "can not fetch cards: " err)))) := by
  simp [ProjectCards.FetchCards, ProjectCards.FetchCards.loop, he]

end GoGithubCli
